import Mathlib

/-!
Verification development for the Context Assembly Engine of the
second-opinion repository: a shallow embedding, in Lean 4, of the
token-budget allocator, the path sandbox, the secret redactor, the
import-graph indexer and the context bundler, together with theorems
settling the stated properties of those components.

Modelling conventions.

* JavaScript numbers used as token counts are modelled as `Nat`; the
  expression `Math.floor(remainingBudget * 0.15)` is modelled as exact
  rational arithmetic `remainingBudget * 15 / 100` with `Nat` floor
  division (the decimal weight literals are exact percentages).
* Filesystem access (`fs.existsSync`, `fs.realpathSync`, `fs.statSync`,
  `fs.readdirSync`, `fs.readFileSync`, the `glob` scan) is modelled by an
  explicit record of functions describing the state of the disk; every
  source function touching the disk takes the record as a parameter.
  A `realpathSync`/`readFileSync` value of `none` models a thrown error.
* Node `path` functions are modelled for POSIX separators; `path.resolve`
  with a single argument is modelled for absolute arguments (every call
  site passes absolute paths), so it coincides with normalisation.
* JavaScript `RegExp` matching is modelled by executable character-level
  matchers, one per source pattern, each implementing the leftmost-match,
  ordered-alternation, greedy semantics of the corresponding regular
  expression; a global `replace`/`match` is a left-to-right scan that
  resumes after the end of each match, exactly as `lastIndex` advances.
-/

namespace SecondOpinion

/-! ## Token estimation and budget allocation (src/utils/tokens.ts) -/

/-- Source `estimateTokens`: `Math.ceil(text.length / 4)`. -/
def estimateTokens (text : String) : Nat :=
  (text.length + 3) / 4

/-- The seven budget categories of `src/utils/tokens.ts`. -/
inductive Category where
  | explicit
  | session
  | git
  | dependency
  | dependent
  | test
  | type
deriving DecidableEq, Repr

/-- Percentage numerators of the source constant `BUDGET_ALLOCATION`
(0.15, 0.3, 0.1, 0.15, 0.15, 0.1, 0.05 written over denominator 100). -/
def allocationPct : Category → Nat
  | .explicit => 15
  | .session => 30
  | .git => 10
  | .dependency => 15
  | .dependent => 15
  | .test => 10
  | .type => 5

/-- Source `BUDGET_ALLOCATION`, as exact rationals. -/
def BUDGET_ALLOCATION (c : Category) : ℚ :=
  (allocationPct c : ℚ) / 100

/-- Source `CATEGORY_PRIORITY_ORDER`. -/
def CATEGORY_PRIORITY_ORDER : List Category :=
  [.explicit, .session, .git, .dependency, .dependent, .test, .type]

/-! ## Character-level matchers for the source regular expressions

A `Matcher` consumes a match from the front of a character list and
returns the remaining characters, or `none` when the pattern does not
match at this position.  The combinators below implement the pieces of
regular-expression syntax actually used by the source patterns. -/

/-- A matcher tries to match a pattern at the head of the input. -/
abbrev Matcher := List Char → Option (List Char)

/-- Occurrence of `sub` as a contiguous block of `l`. -/
def listIsInfixOf (sub : List Char) : List Char → Bool
  | [] => sub.isEmpty
  | c :: r => sub.isPrefixOf (c :: r) || listIsInfixOf sub r

/-- JavaScript `startsWith` (structural character-list version of the
core function, so that proofs can evaluate it). -/
def strStartsWith (s pre : String) : Bool :=
  pre.toList.isPrefixOf s.toList

/-- JavaScript `endsWith`. -/
def strEndsWith (s suf : String) : Bool :=
  suf.toList.isSuffixOf s.toList

/-- JavaScript `slice(n)` for the ASCII paths involved. -/
def strDrop (s : String) (n : Nat) : String :=
  ⟨s.toList.drop n⟩

/-- JavaScript `toLowerCase` for the ASCII paths involved. -/
def strToLower (s : String) : String :=
  ⟨s.toList.map Char.toLower⟩

/-- Occurrence of `sub` anywhere in `s` (an unanchored literal regex). -/
def hasSub (s sub : String) : Bool :=
  listIsInfixOf sub.toList s.toList

/-- JavaScript `\s` (the ASCII whitespace characters). -/
def isSpaceChar (c : Char) : Bool :=
  c = ' ' || c = '\t' || c = '\n' || c = '\r' || c = '\x0b' || c = '\x0c'

/-- JavaScript `\w`, the class `[A-Za-z0-9_]`. -/
def isWordChar (c : Char) : Bool :=
  c.isAlpha || c.isDigit || c = '_'

/-- The class `[A-Za-z0-9]`. -/
def isAlnumChar (c : Char) : Bool :=
  c.isAlpha || c.isDigit

/-- Character comparison, case-insensitive when `ci` is set (for `/i`). -/
def chEq (ci : Bool) (a b : Char) : Bool :=
  if ci then a.toLower = b.toLower else a = b

/-- Match one character satisfying `p`. -/
def pChar (p : Char → Bool) : Matcher := fun l =>
  match l with
  | [] => none
  | c :: r => if p c then some r else none

/-- Take the maximal prefix satisfying `p`; return it and the rest. -/
def pTake (p : Char → Bool) : List Char → List Char × List Char
  | [] => ([], [])
  | c :: r =>
    if p c then
      let (t, rest) := pTake p r
      (c :: t, rest)
    else ([], c :: r)

/-- Greedy `X{n,}` for a character class `X`: maximal run, at least `n`. -/
def pRunGe (p : Char → Bool) (n : Nat) : Matcher := fun l =>
  let (t, rest) := pTake p l
  if n ≤ t.length then some rest else none

/-- Exact repetition `X{n}` for a character class `X`. -/
def pCount (p : Char → Bool) : Nat → Matcher
  | 0 => fun l => some l
  | n + 1 => fun l =>
    match l with
    | [] => none
    | c :: r => if p c then pCount p n r else none

/-- Greedy `X{0,n}` for a character class `X`. -/
def pUpTo (p : Char → Bool) : Nat → Matcher
  | 0 => fun l => some l
  | n + 1 => fun l =>
    match l with
    | [] => some []
    | c :: r => if p c then pUpTo p n r else some (c :: r)

/-- Match a literal string (case-insensitive when `ci` is set). -/
def pLit (ci : Bool) : List Char → Matcher
  | [], l => some l
  | _ :: _, [] => none
  | c :: cs, d :: l => if chEq ci c d then pLit ci cs l else none

/-- Sequencing of matchers. -/
def pSeq (a b : Matcher) : Matcher := fun l => (a l).bind b

/-- Sequence a list of matchers. -/
def pSeqs (ms : List Matcher) : Matcher :=
  ms.foldr pSeq some

/-- Greedy `\s*`. -/
def pWs0 : Matcher := fun l => some (pTake isSpaceChar l).2

/-- Greedy `\s+`. -/
def pWs1 : Matcher := pRunGe isSpaceChar 1

/-- Greedy `X?` for a sub-matcher whose presence is unambiguous. -/
def pOpt (a : Matcher) : Matcher := fun l =>
  match a l with
  | some r => some r
  | none => some l

/-- Ordered alternation followed by a continuation: each alternative is
tried in order against the continuation, as JavaScript backtracking does. -/
def pAltThen : List Matcher → Matcher → Matcher
  | [], _ => fun _ => none
  | a :: as_, k => fun l =>
    match (a l).bind k with
    | some r => some r
    | none => pAltThen as_ k l

/-- Search for the earliest position where `endM` matches, consuming the
scanned characters (the lazy `[\s\S]*?` before an end delimiter). -/
def pSearch (endM : Matcher) : List Char → Option (List Char)
  | [] => endM []
  | c :: r =>
    match endM (c :: r) with
    | some rest => some rest
    | none => pSearch endM r

/-- A quote character, the class `['"]`. -/
def isQuoteChar (c : Char) : Bool :=
  c = '\'' || c = '"'

/-! ## Secret redaction (src/security/redactor.ts) -/

/-- Pattern `private_key`:
`-----BEGIN [A-Z]+ PRIVATE KEY-----[\s\S]+?-----END [A-Z]+ PRIVATE KEY-----`. -/
def mPrivateKey : Matcher :=
  pSeqs [pLit false "-----BEGIN ".toList, pRunGe Char.isUpper 1,
    pLit false " PRIVATE KEY-----".toList,
    fun l =>
      match l with
      | [] => none
      | _ :: r =>
        pSearch (pSeqs [pLit false "-----END ".toList, pRunGe Char.isUpper 1,
          pLit false " PRIVATE KEY-----".toList]) r]

/-- The class `[A-Za-z0-9-_]` of the `jwt` pattern. -/
def isJwtChar (c : Char) : Bool :=
  isAlnumChar c || c = '-' || c = '_'

/-- Pattern `jwt`: `eyJ[A-Za-z0-9-_]+\.eyJ[A-Za-z0-9-_]+\.[A-Za-z0-9-_]+`. -/
def mJwt : Matcher :=
  pSeqs [pLit false "eyJ".toList, pRunGe isJwtChar 1, pChar (· = '.'),
    pLit false "eyJ".toList, pRunGe isJwtChar 1, pChar (· = '.'),
    pRunGe isJwtChar 1]

/-- Pattern `aws_key`: `AKIA[0-9A-Z]{16}`. -/
def mAwsKey : Matcher :=
  pSeq (pLit false "AKIA".toList) (pCount (fun c => c.isDigit || c.isUpper) 16)

/-- Pattern `github_token`: `gh[pousr]_[A-Za-z0-9_]{36,}`. -/
def mGithubToken : Matcher :=
  pSeqs [pLit false "gh".toList,
    pChar (fun c => c = 'p' || c = 'o' || c = 'u' || c = 's' || c = 'r'),
    pChar (· = '_'), pRunGe (fun c => isAlnumChar c || c = '_') 36]

/-- Pattern `openai_key`: `sk-[A-Za-z0-9]{20,}`. -/
def mOpenaiKey : Matcher :=
  pSeq (pLit false "sk-".toList) (pRunGe isAlnumChar 20)

/-- Pattern `stripe_key`: `sk_(?:live|test)_[A-Za-z0-9]{24,}`. -/
def mStripeKey : Matcher :=
  pSeq (pLit false "sk_".toList)
    (pAltThen [pLit false "live".toList, pLit false "test".toList]
      (pSeq (pChar (· = '_')) (pRunGe isAlnumChar 24)))

/-- Pattern `slack_token`: `xox[baprs]-[A-Za-z0-9-]+`. -/
def mSlackToken : Matcher :=
  pSeqs [pLit false "xox".toList,
    pChar (fun c => c = 'b' || c = 'a' || c = 'p' || c = 'r' || c = 's'),
    pChar (· = '-'), pRunGe (fun c => isAlnumChar c || c = '-') 1]

/-- Pattern `connection_string` (`/gi`):
`(mongodb|postgres|postgresql|mysql|redis|amqp):\/\/[^\s'"]+`. -/
def mConnectionString : Matcher :=
  pAltThen [pLit true "mongodb".toList, pLit true "postgres".toList,
      pLit true "postgresql".toList, pLit true "mysql".toList,
      pLit true "redis".toList, pLit true "amqp".toList]
    (pSeq (pLit true "://".toList)
      (pRunGe (fun c => !(isSpaceChar c || isQuoteChar c)) 1))

/-- Pattern `basic_auth` (`/gi`): `https?:\/\/[^:]+:[^@]+@[^\s'"]+`. -/
def mBasicAuth : Matcher :=
  pSeqs [pLit true "http".toList, pOpt (pChar (chEq true 's')),
    pLit true "://".toList, pRunGe (fun c => !(c = ':')) 1, pChar (· = ':'),
    pRunGe (fun c => !(c = '@')) 1, pChar (· = '@'),
    pRunGe (fun c => !(isSpaceChar c || isQuoteChar c)) 1]

/-- Pattern `bearer_token` (`/gi`): `['"]Bearer\s+[A-Za-z0-9._-]{20,}['"]`. -/
def mBearerToken : Matcher :=
  pSeqs [pChar isQuoteChar, pLit true "Bearer".toList, pWs1,
    pRunGe (fun c => isAlnumChar c || c = '.' || c = '_' || c = '-') 20,
    pChar isQuoteChar]

/-- The class `[:=]` of the assignment patterns. -/
def isAssignChar (c : Char) : Bool :=
  c = ':' || c = '='

/-- Pattern `hex_secret` (`/gi`):
`(secret|key|token|hash)\s*[:=]\s*['"][a-fA-F0-9]{32,}['"]`. -/
def mHexSecret : Matcher :=
  pAltThen [pLit true "secret".toList, pLit true "key".toList,
      pLit true "token".toList, pLit true "hash".toList]
    (pSeqs [pWs0, pChar isAssignChar, pWs0, pChar isQuoteChar,
      pRunGe (fun c => c.isDigit || ('a' ≤ c.toLower && c.toLower ≤ 'f')) 32,
      pChar isQuoteChar])

/-- Pattern `base64_secret` (`/gi`):
`(secret|key|token|password)\s*[:=]\s*['"][A-Za-z0-9+/]{40,}={0,2}['"]`. -/
def mBase64Secret : Matcher :=
  pAltThen [pLit true "secret".toList, pLit true "key".toList,
      pLit true "token".toList, pLit true "password".toList]
    (pSeqs [pWs0, pChar isAssignChar, pWs0, pChar isQuoteChar,
      pRunGe (fun c => isAlnumChar c || c = '+' || c = '/') 40,
      pUpTo (· = '=') 2, pChar isQuoteChar])

/-- Pattern `api_key` (`/gi`):
`(api[_-]?key|apikey)\s*[:=]\s*['"][^'"]{10,}['"]`. -/
def mApiKey : Matcher :=
  pAltThen [pSeqs [pLit true "api".toList, pUpTo (fun c => c = '_' || c = '-') 1,
      pLit true "key".toList], pLit true "apikey".toList]
    (pSeqs [pWs0, pChar isAssignChar, pWs0, pChar isQuoteChar,
      pRunGe (fun c => !isQuoteChar c) 10, pChar isQuoteChar])

/-- Pattern `generic_secret` (`/gi`):
`(secret|password|passwd|pwd)\s*[:=]\s*['"][^'"]{8,}['"]`. -/
def mGenericSecret : Matcher :=
  pAltThen [pLit true "secret".toList, pLit true "password".toList,
      pLit true "passwd".toList, pLit true "pwd".toList]
    (pSeqs [pWs0, pChar isAssignChar, pWs0, pChar isQuoteChar,
      pRunGe (fun c => !isQuoteChar c) 8, pChar isQuoteChar])

/-- Source `SECRET_PATTERNS`: the named patterns, in source order. -/
def SECRET_PATTERNS : List (String × Matcher) :=
  [("private_key", mPrivateKey), ("jwt", mJwt), ("aws_key", mAwsKey),
   ("github_token", mGithubToken), ("openai_key", mOpenaiKey),
   ("stripe_key", mStripeKey), ("slack_token", mSlackToken),
   ("connection_string", mConnectionString), ("basic_auth", mBasicAuth),
   ("bearer_token", mBearerToken), ("hex_secret", mHexSecret),
   ("base64_secret", mBase64Secret), ("api_key", mApiKey),
   ("generic_secret", mGenericSecret)]

/-- Count the matches of `content.match(pattern)` for a global pattern:
scan left to right, resuming after the end of each match.  The fuel is
the input length; every source pattern consumes at least one character
per match, so the fuel never runs out on them. -/
def scanCountFuel (m : Matcher) : Nat → List Char → Nat
  | 0, _ => 0
  | _ + 1, [] => 0
  | fuel + 1, c :: r =>
    match m (c :: r) with
    | some rest => 1 + scanCountFuel m fuel rest
    | none => scanCountFuel m fuel r

/-- Matches of a global pattern in a string, counted. -/
def countMatches (m : Matcher) (s : String) : Nat :=
  scanCountFuel m s.toList.length s.toList

/-- `String.replace(pattern, placeholder)` for a global pattern: scan left
to right, emitting the placeholder for each match. -/
def scanReplaceFuel (m : Matcher) (placeholder : List Char) :
    Nat → List Char → List Char
  | 0, l => l
  | _ + 1, [] => []
  | fuel + 1, c :: r =>
    match m (c :: r) with
    | some rest => placeholder ++ scanReplaceFuel m placeholder fuel rest
    | none => c :: scanReplaceFuel m placeholder fuel r

/-- Replace every match of a global pattern by a placeholder. -/
def replaceAll (m : Matcher) (placeholder s : String) : String :=
  ⟨scanReplaceFuel m placeholder.toList s.toList.length s.toList⟩

/-- Source `RedactionResult`. -/
structure RedactionResult where
  content : String
  redactionCount : Nat
  redactedTypes : List String
deriving DecidableEq, Repr

/-- One step of the `redactSecrets` loop: count the pattern's matches in
the original content, and replace its matches in the working copy with
the placeholder naming the pattern. -/
def redactStep (content : String) (acc : String × Nat × List String)
    (p : String × Matcher) : String × Nat × List String :=
  let n := countMatches p.2 content
  (replaceAll p.2 ("[REDACTED:" ++ p.1 ++ "]") acc.1,
   acc.2.1 + n,
   if 0 < n then acc.2.2 ++ [p.1] else acc.2.2)

/-- Source `redactSecrets`: fold the ordered pattern list over the
content; matches are counted against the original content while the
replacements accumulate in the working copy. -/
def redactSecrets (content : String) : RedactionResult :=
  let r := SECRET_PATTERNS.foldl (redactStep content) (content, 0, [])
  ⟨r.1, r.2.1, r.2.2⟩

/-! ## POSIX path model (the Node `path` functions used by the source) -/

/-- Split a character list at `/` separators. -/
def splitSlash (cur : List Char) : List Char → List (List Char)
  | [] => [cur.reverse]
  | c :: r =>
    if c = '/' then cur.reverse :: splitSlash [] r else splitSlash (c :: cur) r

/-- Split a path into its non-empty segments. -/
def pathSegs (p : String) : List String :=
  ((splitSlash [] p.toList).map (fun l => (⟨l⟩ : String))).filter
    (fun s => s ≠ "")

/-- Node `path.isAbsolute` (POSIX). -/
def isAbsolute (p : String) : Bool :=
  strStartsWith p "/"

/-- Join segments with `/` separators. -/
def joinSegs : List String → String
  | [] => ""
  | [s] => s
  | s :: rest => s ++ "/" ++ joinSegs rest

/-- Resolve `.` and `..` segments of an absolute path (at the root, `..`
is dropped), as POSIX `path.normalize` does. -/
def normSegsAbs (segs : List String) : List String :=
  segs.foldl (fun acc s =>
    if s = "." then acc
    else if s = ".." then acc.dropLast
    else acc ++ [s]) []

/-- Resolve `.` and `..` segments of a relative path, keeping leading
`..` segments that have nothing to pop. -/
def normSegsRel (segs : List String) : List String :=
  segs.foldl (fun acc s =>
    if s = "." then acc
    else if s = ".." then
      match acc.getLast? with
      | some t => if t = ".." then acc ++ [s] else acc.dropLast
      | none => [s]
    else acc ++ [s]) []

/-- Node `path.normalize`, modelled for POSIX paths (trailing-separator
preservation, which no call site depends on, is not modelled). -/
def normalize (p : String) : String :=
  if isAbsolute p then
    "/" ++ joinSegs (normSegsAbs (pathSegs p))
  else
    let segs := normSegsRel (pathSegs p)
    if segs = [] then "." else joinSegs segs

/-- Node `path.join a b` (POSIX): concatenate with a separator and
normalize. -/
def joinPath (a b : String) : String :=
  normalize (a ++ "/" ++ b)

/-- Node `path.resolve dir p`, modelled for an absolute base directory. -/
def resolvePath (dir p : String) : String :=
  if isAbsolute p then normalize p else normalize (dir ++ "/" ++ p)

/-- Node one-argument `path.resolve`, modelled for absolute arguments
(every call site passes an absolute path, so the `process.cwd()` base is
never consulted). -/
def nodeResolve (p : String) : String :=
  normalize p

/-- Node `path.dirname` (POSIX). -/
def dirname (p : String) : String :=
  let segs := pathSegs p
  if isAbsolute p then
    if segs.length ≤ 1 then "/" else "/" ++ joinSegs segs.dropLast
  else
    if segs.length ≤ 1 then "." else joinSegs segs.dropLast

/-- Source `isWithinProject` (src/context/imports.ts):
`path.normalize(path.resolve(...))` on both arguments, then a
`startsWith(project + path.sep)` or equality test. -/
def isWithinProject (filePath projectPath : String) : Bool :=
  let normalizedFile := normalize (nodeResolve filePath)
  let normalizedProject := normalize (nodeResolve projectPath)
  strStartsWith normalizedFile (normalizedProject ++ "/") ||
    normalizedFile = normalizedProject

/-! ## Sensitive-path patterns (src/context/bundler.ts)

Each source pattern is an `/i` regular expression over the normalized
path; `[/\\]` matches either separator.  Each is modelled as a boolean
test on the lowercased path, with the same matching semantics. -/

/-- Occurrence of separator-plus-`name` anywhere (`[/\\]name`). -/
def hasSepSub (s name : String) : Bool :=
  hasSub s ("/" ++ name) || hasSub s ("\\" ++ name)

/-- Suffix separator-plus-`name` (`[/\\]name$`). -/
def endsSepSub (s name : String) : Bool :=
  strEndsWith s ("/" ++ name) || strEndsWith s ("\\" ++ name)

/-- The remainders of `l` after each occurrence of `sub`. -/
def remaindersAfter (sub : List Char) : List Char → List (List Char)
  | [] => []
  | c :: r =>
    (if sub.isPrefixOf (c :: r) then [(c :: r).drop sub.length] else []) ++
      remaindersAfter sub r

/-- Pattern `[/\\]\.config[/\\](?:gcloud|gh|hub)[/\\]?`: a `.config`
segment followed by a separator and one of the three tool names. -/
def sensitiveConfigDir (s : String) : Bool :=
  (remaindersAfter "/.config".toList s.toList ++
      remaindersAfter "\\.config".toList s.toList).any fun r =>
    match r with
    | c :: rest =>
      (c = '/' || c = '\\') &&
        (("gcloud".toList.isPrefixOf rest) || ("gh".toList.isPrefixOf rest) ||
          ("hub".toList.isPrefixOf rest))
    | [] => false

/-- Pattern `[/\\]service[-_]?account.*\.json$` (`.` excludes newlines). -/
def sensitiveServiceAccount (s : String) : Bool :=
  (remaindersAfter "/service".toList s.toList ++
      remaindersAfter "\\service".toList s.toList).any fun r =>
    let r' := match r with
      | c :: rest => if c = '-' || c = '_' then rest else r
      | [] => r
    "account".toList.isPrefixOf r' &&
      (let rest := r'.drop 7
       ".json".toList.isSuffixOf rest &&
         (rest.take (rest.length - 5)).all (fun c => c ≠ '\n'))

/-- Pattern `[/\\]\.env($|\.[^/\\]*$)`: a `.env` segment, either final or
followed by a dot-suffix containing no separator. -/
def sensitiveEnvFile (s : String) : Bool :=
  (remaindersAfter "/.env".toList s.toList ++
      remaindersAfter "\\.env".toList s.toList).any fun r =>
    match r with
    | [] => true
    | c :: rest => c = '.' && rest.all (fun d => d ≠ '/' && d ≠ '\\')

/-- Source `SENSITIVE_PATH_PATTERNS`, as one test over the lowercased
path (every source pattern carries the `/i` flag). -/
def sensitivePatternsTest (s0 : String) : Bool :=
  let s := strToLower s0
  hasSepSub s ".git" ||
  hasSepSub s ".ssh" || hasSepSub s ".gnupg" || hasSepSub s ".gpg" ||
  hasSepSub s "id_rsa" || hasSepSub s "id_ed25519" || hasSepSub s "id_ecdsa" ||
  endsSepSub s ".pem" || endsSepSub s ".key" ||
  hasSepSub s ".aws" || sensitiveConfigDir s || hasSepSub s ".kube" ||
  endsSepSub s ".docker/config.json" || endsSepSub s ".docker\\config.json" ||
  endsSepSub s ".netrc" || endsSepSub s ".npmrc" || endsSepSub s ".pypirc" ||
  endsSepSub s "credentials.json" || sensitiveServiceAccount s ||
  endsSepSub s ".credentials" ||
  strEndsWith s "secrets.json" || strEndsWith s "secrets.yaml" ||
  strEndsWith s "secrets.yml" ||
  sensitiveEnvFile s ||
  strEndsWith s ".tfvars" || hasSub s "terraform.tfstate" ||
  strEndsWith s "secret.yaml" || strEndsWith s "secret.yml" ||
  strEndsWith s ".bash_history" || strEndsWith s ".zsh_history" ||
  strEndsWith s ".sh_history"

/-- Source `isSensitivePath`: normalize, then test the pattern list. -/
def isSensitivePath (filePath : String) : Bool :=
  sensitivePatternsTest (normalize filePath)

/-! ## Path sandbox (`expandPath`, src/context/bundler.ts) -/

/-- The result of `fs.statSync` as consumed by the source (`isFile()`,
`isDirectory()`, or neither). -/
inductive StatKind where
  | file
  | dir
  | other
deriving DecidableEq, Repr

/-- The filesystem state consulted by `expandPath`. -/
structure SandboxFS where
  existsSync : String → Bool
  realpathSync : String → Option String
  statKind : String → StatKind
  readdirSync : String → List String
  homedir : String

/-- The two reasons of the source `BlockedFile`. -/
inductive BlockReason where
  | sensitive_path
  | outside_project_requires_allowExternalFiles
deriving DecidableEq, Repr

/-- The result record of `expandPath`. -/
structure ExpandResult where
  files : List String
  blocked : List (String × BlockReason)
deriving DecidableEq, Repr

/-- Source `MAX_EXPAND_DEPTH`. -/
def MAX_EXPAND_DEPTH : Nat := 10

/-- Source `expandTilde`: expand a leading `~/` against the home
directory. -/
def expandTilde (homedir filePath : String) : String :=
  if strStartsWith filePath "~/" then joinPath homedir (strDrop filePath 2)
  else filePath

/-- The normalized absolute candidate `expandPath` works on: tilde
expansion, then resolution against the project for relative paths, then
`path.normalize`. -/
def normalizedInput (homedir projectPath inputPath : String) : String :=
  let e := expandTilde homedir inputPath
  normalize (if isAbsolute e then e else joinPath projectPath e)

/-- One directory entry step of the `expandPath` recursion (the body of
the `for (const entry of entries)` loop): skip dotfiles and
`node_modules`, re-resolve the entry through `realpathSync`, re-classify
the resolved path, and recurse (with the remaining fuel) into
subdirectories. -/
def expandEntryStep (fs : SandboxFS) (projectPath : String)
    (allowExternalFiles : Bool) (dirRealPath : String)
    (recurse : String → ExpandResult) (acc : ExpandResult) (name : String) :
    ExpandResult :=
  if strStartsWith name "." || name = "node_modules" then acc
  else
    let fullPath := joinPath dirRealPath name
    match fs.realpathSync fullPath with
    | none => acc
    | some entryRealPath =>
      if isSensitivePath entryRealPath then
        { acc with blocked := acc.blocked ++ [(fullPath, .sensitive_path)] }
      else if !allowExternalFiles && !isWithinProject entryRealPath projectPath then
        { acc with blocked := acc.blocked ++
            [(fullPath, .outside_project_requires_allowExternalFiles)] }
      else
        match fs.statKind entryRealPath with
        | .file => { acc with files := acc.files ++ [entryRealPath] }
        | .dir =>
          let sub := recurse entryRealPath
          { acc with files := acc.files ++ sub.files,
                     blocked := acc.blocked ++ sub.blocked }
        | .other => acc

/-- Source `expandPath`, by remaining recursion depth: fuel `f` stands
for calls at `depth = MAX_EXPAND_DEPTH − f`, so fuel `0` is the
`depth >= MAX_EXPAND_DEPTH` guard returning an empty result. -/
def expandPathFuel (fs : SandboxFS) (projectPath : String)
    (allowExternalFiles : Bool) : Nat → String → ExpandResult
  | 0, _ => ⟨[], []⟩
  | fuel + 1, inputPath =>
    let expandedPath := normalizedInput fs.homedir projectPath inputPath
    if isSensitivePath expandedPath then
      ⟨[], [(expandedPath, .sensitive_path)]⟩
    else if !fs.existsSync expandedPath then ⟨[], []⟩
    else
      match fs.realpathSync expandedPath with
      | none => ⟨[], []⟩
      | some realPath =>
        if isSensitivePath realPath then
          ⟨[], [(expandedPath, .sensitive_path)]⟩
        else if !allowExternalFiles && !isWithinProject realPath projectPath then
          ⟨[], [(expandedPath, .outside_project_requires_allowExternalFiles)]⟩
        else
          match fs.statKind realPath with
          | .file => ⟨[realPath], []⟩
          | .dir =>
            (fs.readdirSync realPath).foldl
              (expandEntryStep fs projectPath allowExternalFiles realPath
                (expandPathFuel fs projectPath allowExternalFiles fuel))
              ⟨[], []⟩
          | .other => ⟨[], []⟩

/-- Source `expandPath` at a given starting depth (the exported entry
point is depth 0). -/
def expandPath (fs : SandboxFS) (inputPath projectPath : String)
    (allowExternalFiles : Bool) (depth : Nat) : ExpandResult :=
  expandPathFuel fs projectPath allowExternalFiles
    (MAX_EXPAND_DEPTH - depth) inputPath

/-! ## Import graph indexer (src/context/imports.ts) -/

/-- A capturing matcher: returns the first capture group and the rest of
the input after the whole match. -/
abbrev CMatcher := List Char → Option (String × List Char)

/-- The class `[\w*{}\s,]` of the import-clause groups. -/
def isClauseChar (c : Char) : Bool :=
  isWordChar c || c = '*' || c = '{' || c = '}' || isSpaceChar c || c = ','

/-- The quoted capture `['"]([^'"]+)['"]` shared by all import patterns. -/
def quotedSpec : CMatcher := fun l =>
  match l with
  | [] => none
  | c :: r =>
    if isQuoteChar c then
      let (spec, rest) := pTake (fun d => !isQuoteChar d) r
      match rest with
      | d :: rest' =>
        if isQuoteChar d && 1 ≤ spec.length then some (⟨spec⟩, rest') else none
      | [] => none
    else none

/-- Backtracking for the greedy clause `[\w*{}\s,]+\s+from\s+` followed
by a quoted capture: try consuming `k` clause characters, largest `k`
first, exactly as the greedy `+` backtracks. -/
def tryClauseFrom (k : Nat) (l : List Char) : Option (String × List Char) :=
  match k with
  | 0 => none
  | k' + 1 =>
    match (pWs1 (l.drop (k' + 1))).bind
        (fun a => (pLit false "from".toList a).bind pWs1) with
    | some b =>
      match quotedSpec b with
      | some res => some res
      | none => tryClauseFrom k' l
    | none => tryClauseFrom k' l

/-- Import pattern 1:
`import\s+(?:[\w*{}\s,]+\s+from\s+)?['"]([^'"]+)['"]`. -/
def importPat1 : CMatcher := fun l =>
  (pLit false "import".toList l).bind fun a =>
    (pWs1 a).bind fun b =>
      match tryClauseFrom (pTake isClauseChar b).1.length b with
      | some res => some res
      | none => quotedSpec b

/-- Import pattern 2 (dynamic): `import\s*\(\s*['"]([^'"]+)['"]\s*\)`. -/
def importPat2 : CMatcher := fun l =>
  (pLit false "import".toList l).bind fun a =>
    ((pWs0 a).bind (pChar (· = '('))).bind fun b =>
      ((pWs0 b).bind quotedSpec).bind fun (s, c) =>
        ((pWs0 c).bind (pChar (· = ')'))).map fun d => (s, d)

/-- Import pattern 3 (CommonJS): `require\s*\(\s*['"]([^'"]+)['"]\s*\)`. -/
def importPat3 : CMatcher := fun l =>
  (pLit false "require".toList l).bind fun a =>
    ((pWs0 a).bind (pChar (· = '('))).bind fun b =>
      ((pWs0 b).bind quotedSpec).bind fun (s, c) =>
        ((pWs0 c).bind (pChar (· = ')'))).map fun d => (s, d)

/-- Backtracking for the optional clause `[\w*{}\s,]+\s+` of the export
pattern, followed by `from\s+` and the quoted capture. -/
def tryExportClause (k : Nat) (l : List Char) : Option (String × List Char) :=
  match k with
  | 0 => none
  | k' + 1 =>
    match (pWs1 (l.drop (k' + 1))).bind
        (fun a => (pLit false "from".toList a).bind pWs1) with
    | some b =>
      match quotedSpec b with
      | some res => some res
      | none => tryExportClause k' l
    | none => tryExportClause k' l

/-- Import pattern 4 (re-export):
`export\s+(?:[\w*{}\s,]+\s+)?from\s+['"]([^'"]+)['"]`. -/
def importPat4 : CMatcher := fun l =>
  (pLit false "export".toList l).bind fun a =>
    (pWs1 a).bind fun b =>
      match tryExportClause (pTake isClauseChar b).1.length b with
      | some res => some res
      | none =>
        ((pLit false "from".toList b).bind pWs1).bind quotedSpec

/-- Source `IMPORT_PATTERNS`, in order. -/
def IMPORT_PATTERNS : List CMatcher :=
  [importPat1, importPat2, importPat3, importPat4]

/-- The `exec` loop of one global pattern: captures of successive
matches, scanning left to right and resuming after each match. -/
def scanCapturesFuel (m : CMatcher) : Nat → List Char → List String
  | 0, _ => []
  | _ + 1, [] => []
  | fuel + 1, c :: r =>
    match m (c :: r) with
    | some (s, rest) => s :: scanCapturesFuel m fuel rest
    | none => scanCapturesFuel m fuel r

/-- Insertion preserving first occurrence (a JavaScript `Set.add`). -/
def insertUnique (l : List String) (s : String) : List String :=
  if l.contains s then l else l ++ [s]

/-- Source `extractImports`: run every pattern over the content, adding
captures to an insertion-ordered set. -/
def extractImports (content : String) : List String :=
  IMPORT_PATTERNS.foldl
    (fun acc m =>
      (scanCapturesFuel m content.toList.length content.toList).foldl
        insertUnique acc) []

/-- Source `CODE_EXTENSIONS`. -/
def CODE_EXTENSIONS : List String :=
  [".ts", ".tsx", ".js", ".jsx", ".mjs", ".cjs"]

/-- The filesystem state consulted by the import indexer: the `glob`
result, file contents (`none` models a read error), and the existence
and `isFile` probes of `resolveImportPath`. -/
structure ImportFS where
  sourceFiles : List String
  readFileSync : String → Option String
  existsSync : String → Bool
  isFile : String → Bool

/-- The candidate loop of `resolveImportPath`: the first existing file
candidate wins; an existing candidate outside the project makes the
whole resolution fail (the source returns `null` there, it does not try
later candidates). -/
def firstExistingCandidate (fs : ImportFS) (projectPath : String) :
    List String → Option String
  | [] => none
  | c :: rest =>
    if fs.existsSync c && fs.isFile c then
      if !isWithinProject c projectPath then none else some c
    else firstExistingCandidate fs projectPath rest

/-- Source `resolveImportPath`: skip bare package specifiers, resolve
relative / root-absolute / `@/`-aliased specifiers against the importing
file or the project `src` directory, and probe extension and index
candidates. -/
def resolveImportPath (fs : ImportFS)
    (importPath fromFile projectPath : String) : Option String :=
  if !(strStartsWith importPath "." || strStartsWith importPath "/" ||
      strStartsWith importPath "@/") then none
  else
    let fromDir := dirname fromFile
    let targetPath :=
      if strStartsWith importPath "@/" then
        joinPath (joinPath projectPath "src") (strDrop importPath 2)
      else if strStartsWith importPath "/" then joinPath projectPath importPath
      else resolvePath fromDir importPath
    firstExistingCandidate fs projectPath
      ([targetPath] ++ CODE_EXTENSIONS.map (fun ext => targetPath ++ ext) ++
        CODE_EXTENSIONS.map (fun ext => joinPath targetPath ("index" ++ ext)))

/-- Source `ImportIndex`: forward and reverse dependency maps, as total
functions defaulting to the empty set. -/
structure ImportIndex where
  imports : String → List String
  importedBy : String → List String

/-- Processing of one scanned file inside `buildImportIndex`: record an
(initially empty) forward entry, then add each resolved import to the
forward map and the importing file to the reverse map. -/
def indexFile (fs : ImportFS) (projectPath : String) (index : ImportIndex)
    (file : String) : ImportIndex :=
  match fs.readFileSync file with
  | none => index
  | some content =>
    let index0 : ImportIndex :=
      { index with imports := fun p => if p = file then [] else index.imports p }
    (extractImports content).foldl
      (fun idx importPath =>
        match resolveImportPath fs importPath file projectPath with
        | none => idx
        | some resolved =>
          { imports := fun p =>
              if p = file then insertUnique (idx.imports p) resolved
              else idx.imports p,
            importedBy := fun p =>
              if p = resolved then insertUnique (idx.importedBy p) file
              else idx.importedBy p })
      index0

/-- Source `buildImportIndex`: scan every globbed source file once. -/
def buildImportIndex (fs : ImportFS) (projectPath : String) : ImportIndex :=
  fs.sourceFiles.foldl (indexFile fs projectPath)
    ⟨fun _ => [], fun _ => []⟩

/-- Source `getDependentsFromIndex`: the union of the reverse-map entries
of the queried files, excluding the queried files themselves. -/
def getDependentsFromIndex (files : List String) (index : ImportIndex) :
    List String :=
  files.foldl
    (fun acc f =>
      (index.importedBy f).foldl
        (fun acc' dep =>
          if files.contains dep then acc' else insertUnique acc' dep)
        acc)
    []

/-! ## Context bundler (src/context/bundler.ts)

The budget-allocation skeleton of `bundleContext` is modelled with the
external collaborators abstracted as inputs: the candidate files of each
category are given as `(path, raw content)` pairs — in the source they
come from `expandPath`, the session parser, `git`, the import indexer
and the test/type finders, and only files whose contents could be read
produce candidates.  The blocked-path records that `bundleContext` also
pushes into `omittedFiles` (with token estimate 0) before admission, the
advisory `budgetWarnings`, and the per-file redaction statistics extend
the bundle in ways none of the admission, accounting or spillover logic
reads back; they are not modelled. -/

/-- The reasons of the source `OmittedFile`. -/
inductive OmitReason where
  | budget_exceeded
  | outside_project
  | sensitive_path
  | outside_project_requires_allowExternalFiles
deriving DecidableEq, Repr

/-- Source `FileEntry`. -/
structure FileEntry where
  path : String
  content : String
  category : Category
  tokenEstimate : Nat
deriving DecidableEq, Repr

/-- Source `OmittedFile`. -/
structure OmittedFile where
  path : String
  category : Category
  tokenEstimate : Nat
  reason : OmitReason
deriving DecidableEq, Repr

/-- The mutable bundle built by `bundleContext`, together with the
`addedFiles` dedup set (modelled as the insertion-ordered list of added
paths). -/
structure BundleState where
  conversationContext : String
  files : List FileEntry
  omittedFiles : List OmittedFile
  totalTokens : Nat
  categories : Category → Nat
  addedFiles : List String

/-- Source `readFileEntry`: redact the (read or cached) content and build
the entry with the redacted content's token estimate. -/
def readFileEntry (filePath : String) (category : Category)
    (content : String) : FileEntry :=
  let r := redactSecrets content
  ⟨filePath, r.content, category, estimateTokens r.content⟩

/-- Source `addFilesWithBudget`: greedy admission in list order.  A file
failing the bounds check is recorded `outside_project`; a file whose
estimate would push this call's usage over the budget is recorded
`budget_exceeded` and processing continues; an admitted file not yet in
`addedFiles` is appended to the bundle and charged to its category.
Returns the updated state and the tokens used by this call. -/
def addFilesWithBudget (projectPath : String) (category : Category)
    (budget : Nat) (skipBoundsCheck : Bool) :
    BundleState → Nat → List FileEntry → BundleState × Nat
  | st, used, [] => (st, used)
  | st, used, f :: rest =>
    if !skipBoundsCheck && !isWithinProject f.path projectPath then
      addFilesWithBudget projectPath category budget skipBoundsCheck
        { st with omittedFiles := st.omittedFiles ++
            [⟨f.path, category, f.tokenEstimate, .outside_project⟩] }
        used rest
    else if budget < used + f.tokenEstimate then
      addFilesWithBudget projectPath category budget skipBoundsCheck
        { st with omittedFiles := st.omittedFiles ++
            [⟨f.path, category, f.tokenEstimate, .budget_exceeded⟩] }
        used rest
    else if st.addedFiles.contains f.path then
      addFilesWithBudget projectPath category budget skipBoundsCheck
        st used rest
    else
      addFilesWithBudget projectPath category budget skipBoundsCheck
        { st with files := st.files ++ [f],
                  addedFiles := st.addedFiles ++ [f.path],
                  totalTokens := st.totalTokens + f.tokenEstimate,
                  categories := fun c =>
                    if c = category then st.categories c + f.tokenEstimate
                    else st.categories c }
        (used + f.tokenEstimate) rest

/-- The per-category base budgets of `bundleContext`:
`Math.floor(remainingBudget * BUDGET_ALLOCATION[c])`. -/
def baseBudget (remainingBudget : Nat) (c : Category) : Nat :=
  remainingBudget * allocationPct c / 100

/-- Source `getBudgetWithSpillover`, as the new spillover it stores:
`bonusBudget = Math.floor(spillover * 0.5)` and the update is
`max(0, baseBudget − usedTokens) + (spillover − bonusBudget)` (`Nat`
subtraction is the `max(0, ·)`). -/
def getBudgetWithSpillover (baseBudget usedTokens spillover : Nat) : Nat :=
  (baseBudget - usedTokens) + (spillover - spillover / 2)

/-- The candidate files of the seven categories, as `(path, raw content)`
pairs in the order the source processes them. -/
structure BundleCandidates where
  explicitFiles : List (String × String)
  sessionFiles : List (String × String)
  gitFiles : List (String × String)
  depFiles : List (String × String)
  dependentFiles : List (String × String)
  testFiles : List (String × String)
  typeFiles : List (String × String)

/-- Build the entries of one category via `readFileEntry`. -/
def mkEntries (category : Category) (l : List (String × String)) :
    List FileEntry :=
  l.map fun pc => readFileEntry pc.1 category pc.2

/-- The stable smallest-first sort applied to dependency and dependent
candidates (`.sort((a, b) => a.tokenEstimate - b.tokenEstimate)`). -/
def sortByTokenEstimate (l : List FileEntry) : List FileEntry :=
  l.foldl (fun acc f =>
    (acc.partition (fun g => g.tokenEstimate ≤ f.tokenEstimate)).1 ++ [f] ++
      (acc.partition (fun g => g.tokenEstimate ≤ f.tokenEstimate)).2) []

/-- The category processed by phase `k` (the source processes the seven
categories inline, in `CATEGORY_PRIORITY_ORDER`). -/
def phaseCategory : Nat → Category
  | 0 => .explicit
  | 1 => .session
  | 2 => .git
  | 3 => .dependency
  | 4 => .dependent
  | 5 => .test
  | _ => .type

/-- The phase index of a category. -/
def phaseIdx : Category → Nat
  | .explicit => 0
  | .session => 1
  | .git => 2
  | .dependency => 3
  | .dependent => 4
  | .test => 5
  | .type => 6

/-- The candidate entries handed to phase `k`, as built by the source:
explicit and session candidates are taken as supplied; git, dependency,
dependent, test and type candidates are filtered against the
`addedFiles` set as it stands when the phase builds its list; dependency
and dependent entries are then sorted smallest-estimate-first. -/
def phaseEntries (cand : BundleCandidates) (st : BundleState) (k : Nat) :
    List FileEntry :=
  match k with
  | 0 => mkEntries .explicit cand.explicitFiles
  | 1 => mkEntries .session cand.sessionFiles
  | 2 => mkEntries .git (cand.gitFiles.filter
      (fun pc => !st.addedFiles.contains pc.1))
  | 3 => sortByTokenEstimate (mkEntries .dependency (cand.depFiles.filter
      (fun pc => !st.addedFiles.contains pc.1)))
  | 4 => sortByTokenEstimate (mkEntries .dependent (cand.dependentFiles.filter
      (fun pc => !st.addedFiles.contains pc.1)))
  | 5 => mkEntries .test (cand.testFiles.filter
      (fun pc => !st.addedFiles.contains pc.1))
  | _ => mkEntries .type (cand.typeFiles.filter
      (fun pc => !st.addedFiles.contains pc.1))

/-- One category phase of `bundleContext`: compute the effective budget
(the explicit phase receives the whole initial spillover, which is zero;
intermediate phases receive half the accumulated spillover; the final
type phase receives all of it), admit the candidates, and perform the
spillover update (the type phase performs none). -/
def bundleStep (projectPath : String) (remainingBudget : Nat)
    (cand : BundleCandidates) (k : Nat) (stsp : BundleState × Nat) :
    BundleState × Nat :=
  let c := phaseCategory k
  let budget :=
    if k = 0 then baseBudget remainingBudget c + stsp.2
    else if k = 6 then baseBudget remainingBudget c + stsp.2
    else baseBudget remainingBudget c + stsp.2 / 2
  let r := addFilesWithBudget projectPath c budget (k = 0) stsp.1 0
      (phaseEntries cand stsp.1 k)
  if k = 6 then (r.1, stsp.2)
  else (r.1, getBudgetWithSpillover (baseBudget remainingBudget c) r.2 stsp.2)

/-- The empty bundle of `bundleContext`, holding the conversation context
(the empty string when no conversation is included) and its token cost. -/
def initialBundle (conversationContext : String) : BundleState :=
  { conversationContext := conversationContext,
    files := [], omittedFiles := [],
    totalTokens := estimateTokens conversationContext,
    categories := fun _ => 0, addedFiles := [] }

/-- The bundle state and spillover after the first `k` phases. -/
def bundleAfter (projectPath : String) (maxTokens : Nat)
    (conversationContext : String) (cand : BundleCandidates) :
    Nat → BundleState × Nat
  | 0 => (initialBundle conversationContext, 0)
  | k + 1 =>
    bundleStep projectPath (maxTokens - estimateTokens conversationContext)
      cand k
      (bundleAfter projectPath maxTokens conversationContext cand k)

/-- Source `bundleContext`: the bundle after all seven phases. -/
def bundleContext (projectPath : String) (maxTokens : Nat)
    (conversationContext : String) (cand : BundleCandidates) : BundleState :=
  (bundleAfter projectPath maxTokens conversationContext cand 7).1

/-! ## The scalar spillover pipeline (for budget-conservation claims)

For claim C1 the spillover bookkeeping is considered for an arbitrary
sequence `u 0, …, u 6` of per-category token usages (a run of
`bundleContext` produces the usages returned by its seven
`addFilesWithBudget` calls). -/

/-- The spillover accumulator after the updates of the first `k` phases
(only phases 0–5 update it; the type phase does not). -/
def spilloverAfter (remainingBudget : Nat) (u : Nat → Nat) : Nat → Nat
  | 0 => 0
  | k + 1 =>
    getBudgetWithSpillover (baseBudget remainingBudget (phaseCategory k))
      (u k) (spilloverAfter remainingBudget u k)

/-- The spillover bonus granted to phase `k`: the whole (zero) initial
spillover for the explicit phase, half the accumulated spillover for the
intermediate phases, and all remaining spillover for the final type
phase. -/
def bonusGranted (remainingBudget : Nat) (u : Nat → Nat) (k : Nat) : Nat :=
  if k = 0 then spilloverAfter remainingBudget u 0
  else if k = 6 then spilloverAfter remainingBudget u 6
  else spilloverAfter remainingBudget u k / 2

/-- The unused base budget a phase passes forward into the spillover
pool: `max(0, baseBudget − used)`. -/
def unusedFromBase (remainingBudget : Nat) (u : Nat → Nat) (k : Nat) : Nat :=
  baseBudget remainingBudget (phaseCategory k) - u k

/-- The net spillover received by phase `k`: the bonus granted to it
minus the unused base budget it passes forward (the final type phase
keeps its whole bonus, it passes nothing forward). -/
def netSpilloverReceived (remainingBudget : Nat) (u : Nat → Nat)
    (k : Nat) : ℤ :=
  if k = 6 then (bonusGranted remainingBudget u 6 : ℤ)
  else (bonusGranted remainingBudget u k : ℤ) - unusedFromBase remainingBudget u k

/-- The total token budget made available across the seven categories:
each category's base budget plus the net spillover it receives. -/
def totalAvailable (remainingBudget : Nat) (u : Nat → Nat) : ℤ :=
  ((List.range 7).map fun k =>
    (baseBudget remainingBudget (phaseCategory k) : ℤ) +
      netSpilloverReceived remainingBudget u k).sum

/-- The sum of the seven per-category base budgets. -/
def baseBudgetSum (remainingBudget : Nat) : Nat :=
  ((List.range 7).map fun k =>
    baseBudget remainingBudget (phaseCategory k)).sum

/-- Token-estimate sum of a list of entries. -/
def sumTokens (l : List FileEntry) : Nat :=
  (l.map (·.tokenEstimate)).sum

/-- The sum of the seven per-category token counters of a bundle. -/
def categoriesTotal (st : BundleState) : Nat :=
  (CATEGORY_PRIORITY_ORDER.map st.categories).sum

/-! ## Concrete fixtures used to instantiate the theorems -/

/-- A disk with a symlink `/proj/link` to an SSH key, and a directory
`/proj/d` containing an entry `evil` that resolves to the same key. -/
def sandboxFixture : SandboxFS :=
  { existsSync := fun p => p = "/proj/link" || p = "/proj/d",
    realpathSync := fun p =>
      if p = "/proj/link" then some "/home/u/.ssh/id_rsa"
      else if p = "/proj/d" then some "/proj/d"
      else if p = "/proj/d/evil" then some "/home/u/.ssh/id_rsa"
      else none,
    statKind := fun p =>
      if p = "/proj/d" then .dir
      else if p = "/home/u/.ssh/id_rsa" then .file
      else .other,
    readdirSync := fun p => if p = "/proj/d" then ["evil"] else [],
    homedir := "/home/u" }

/-- A disk with nothing on it. -/
def emptySandbox : SandboxFS :=
  { existsSync := fun _ => false, realpathSync := fun _ => none,
    statKind := fun _ => .other, readdirSync := fun _ => [],
    homedir := "/home/u" }

/-- The reverse-index scenario project: `a.ts` and `b.ts` each import
`./shared`, and `shared.ts` has no imports. -/
def importFixture : ImportFS :=
  { sourceFiles := ["/proj/a.ts", "/proj/b.ts", "/proj/shared.ts"],
    readFileSync := fun p =>
      if p = "/proj/a.ts" then some "const s = 1; import \"./shared\";"
      else if p = "/proj/b.ts" then some "import \"./shared\"; const t = 2;"
      else if p = "/proj/shared.ts" then some "export const x = 1;"
      else none,
    existsSync := fun p =>
      p = "/proj/a.ts" || p = "/proj/b.ts" || p = "/proj/shared.ts",
    isFile := fun p =>
      p = "/proj/a.ts" || p = "/proj/b.ts" || p = "/proj/shared.ts" }

/-- A project whose single file imports itself (`a.ts` contains a
side-effect import of `./a`, which resolves to `/proj/a.ts`). -/
def selfImportFixture : ImportFS :=
  { sourceFiles := ["/proj/a.ts"],
    readFileSync := fun p =>
      if p = "/proj/a.ts" then some "import \"./a\";" else none,
    existsSync := fun p => p = "/proj/a.ts",
    isFile := fun p => p = "/proj/a.ts" }

/-- A disk on which `/proj/link.ts` is a symlink to `/proj/real.ts`: one
canonical file reachable under two raw path strings. -/
def aliasFixture : SandboxFS :=
  { existsSync := fun p => p = "/proj/link.ts",
    realpathSync := fun p =>
      if p = "/proj/link.ts" then some "/proj/real.ts"
      else if p = "/proj/real.ts" then some "/proj/real.ts"
      else none,
    statKind := fun p => if p = "/proj/real.ts" then .file else .other,
    readdirSync := fun _ => [],
    homedir := "/home/u" }

/-- Candidates of a run on the `aliasFixture` disk: the explicit request
was expanded by `expandPath` (which resolves the symlink to
`/proj/real.ts`), while the session log supplies the same underlying
file under its raw symlink path `/proj/link.ts` — the source builds
session entries straight from the logged paths, with no
`realpathSync`. -/
def aliasCandidates : BundleCandidates :=
  { explicitFiles := [("/proj/real.ts", "x")],
    sessionFiles := [("/proj/link.ts", "x")],
    gitFiles := [], depFiles := [], dependentFiles := [],
    testFiles := [], typeFiles := [] }

/-- An 80-character secret-free content, estimating to 20 tokens. -/
def budgetContent : String :=
  ⟨List.replicate 80 'a'⟩

/-- Candidates of a run in which the same path is both explicitly
requested and present in the session log: with a 100-token ceiling the
explicit base budget (15) rejects its 20-token entry, and the session
phase (budget 30 + 7 spillover) then admits it. -/
def reclaimCandidates : BundleCandidates :=
  { explicitFiles := [("/proj/a.ts", budgetContent)],
    sessionFiles := [("/proj/a.ts", budgetContent)],
    gitFiles := [], depFiles := [], dependentFiles := [],
    testFiles := [], typeFiles := [] }

/-! # Theorems -/

/-- Claim C4 counterexample: the source weights are not ordered with
`explicit` highest and `session` second: `explicit` (0.15) is strictly
below `session` (0.3), and `git` (0.1) is strictly below `dependency`
(0.15), so the descending order asserted by the claim already fails at
its first and third links. -/
theorem C4_counterexample :
    BUDGET_ALLOCATION Category.explicit < BUDGET_ALLOCATION Category.session ∧
    BUDGET_ALLOCATION Category.git < BUDGET_ALLOCATION Category.dependency := by
  constructor <;> · simp only [BUDGET_ALLOCATION, allocationPct]; norm_num

/-- Claim C4 (amended): the fixed percentage weights give `session` the
strictly highest share (30%); `explicit`, `dependency` and `dependent`
each receive 15%; `git` and `test` each receive 10%; and `type` receives
the strictly lowest share (5%). -/
theorem C4_allocation_values :
    (∀ c : Category, c ≠ .session → BUDGET_ALLOCATION c < BUDGET_ALLOCATION .session) ∧
    (∀ c : Category, c ≠ .type → BUDGET_ALLOCATION .type < BUDGET_ALLOCATION c) ∧
    BUDGET_ALLOCATION .explicit = 15 / 100 ∧
    BUDGET_ALLOCATION .session = 30 / 100 ∧
    BUDGET_ALLOCATION .git = 10 / 100 ∧
    BUDGET_ALLOCATION .dependency = 15 / 100 ∧
    BUDGET_ALLOCATION .dependent = 15 / 100 ∧
    BUDGET_ALLOCATION .test = 10 / 100 ∧
    BUDGET_ALLOCATION .type = 5 / 100 := by
  refine ⟨?_, ?_, ?_, ?_, ?_, ?_, ?_, ?_, ?_⟩
  · intro c hc
    cases c <;> simp only [BUDGET_ALLOCATION, allocationPct] <;> first
      | exact absurd rfl hc
      | norm_num
  · intro c hc
    cases c <;> simp only [BUDGET_ALLOCATION, allocationPct] <;> first
      | exact absurd rfl hc
      | norm_num
  all_goals · simp only [BUDGET_ALLOCATION, allocationPct]; norm_num

/-- Claim C4 (amended) witness: instantiation at `explicit` and `test`. -/
theorem C4_allocation_values_witness :
    BUDGET_ALLOCATION Category.explicit < BUDGET_ALLOCATION Category.session ∧
    BUDGET_ALLOCATION Category.type < BUDGET_ALLOCATION Category.test :=
  ⟨C4_allocation_values.1 Category.explicit (by decide),
   C4_allocation_values.2.1 Category.test (by decide)⟩

/-- When a global pattern has no match anywhere in the input, the
replacement scan returns the input unchanged. -/
theorem scanReplace_of_count_zero (m : Matcher) (ph : List Char) :
    ∀ (fuel : Nat) (l : List Char), scanCountFuel m fuel l = 0 →
      scanReplaceFuel m ph fuel l = l
  | 0, _, _ => rfl
  | _ + 1, [], _ => rfl
  | fuel + 1, c :: r, h => by
    cases hm : m (c :: r) with
    | some rest =>
      exfalso
      simp only [scanCountFuel, hm] at h
      omega
    | none =>
      simp only [scanCountFuel, hm] at h
      simp only [scanReplaceFuel, hm]
      rw [scanReplace_of_count_zero m ph fuel r h]

/-- A pattern with no match in a string leaves it unchanged under
`replaceAll`. -/
theorem replaceAll_of_countMatches_zero (m : Matcher) (ph s : String)
    (h : countMatches m s = 0) : replaceAll m ph s = s := by
  unfold replaceAll
  rw [scanReplace_of_count_zero m ph.toList s.toList.length s.toList h]
  rfl

/-- The redaction count only grows along the pattern fold. -/
theorem redact_foldl_count_le (content : String) :
    ∀ (ps : List (String × Matcher)) (acc : String × Nat × List String),
      acc.2.1 ≤ (ps.foldl (redactStep content) acc).2.1
  | [], _ => le_refl _
  | p :: ps, acc => by
    refine le_trans ?_ (redact_foldl_count_le content ps (redactStep content acc p))
    simp only [redactStep]
    omega

/-- If the whole fold finds no match in the original content, the
working copy never moves away from the content. -/
theorem redact_foldl_content_of_zero (content : String) :
    ∀ (ps : List (String × Matcher)) (k : Nat) (ts : List String),
      (ps.foldl (redactStep content) (content, k, ts)).2.1 = 0 →
      (ps.foldl (redactStep content) (content, k, ts)).1 = content
  | [], _, _, _ => rfl
  | p :: ps, k, ts, h => by
    have hle := redact_foldl_count_le content ps
      (redactStep content (content, k, ts) p)
    have h21 : (redactStep content (content, k, ts) p).2.1 =
        k + countMatches p.2 content := by
      simp [redactStep]
    simp only [List.foldl_cons] at h ⊢
    have hn : countMatches p.2 content = 0 := by omega
    have hstep : redactStep content (content, k, ts) p = (content, k, ts) := by
      simp [redactStep, hn, replaceAll_of_countMatches_zero p.2 _ content hn]
    rw [hstep] at h ⊢
    exact redact_foldl_content_of_zero content ps k ts h

/-- An input in which `redactSecrets` finds no secret is returned
unchanged. -/
theorem redactSecrets_of_count_zero (x : String)
    (h : (redactSecrets x).redactionCount = 0) :
    (redactSecrets x).content = x := by
  unfold redactSecrets at h ⊢
  exact redact_foldl_content_of_zero x SECRET_PATTERNS 0 [] h

/-- Claim C7 counterexample: redaction is not idempotent.  On the input
`http://apassword="12345678"@b` the first pass rewrites the password
assignment to `http://a[REDACTED:generic_secret]@b`; the colon inside
the placeholder then completes the `basic_auth` pattern, so a second
pass rewrites the whole output to `[REDACTED:basic_auth]`. -/
theorem C7_counterexample :
    (redactSecrets
        ((redactSecrets "http://apassword=\"12345678\"@b").content)).content ≠
      (redactSecrets "http://apassword=\"12345678\"@b").content := by
  decide

/-- Claim C7 (amended): a second application of `redactSecrets` is the
identity exactly when it finds no match in the first pass's output; for
every input on which the second pass counts zero redactions — in
particular every input whose placeholders do not merge with surrounding
text into a new secret shape — `redact(redact(x).content).content`
equals `redact(x).content`.  (The counterexample shows inputs exist
where the second pass does match, so unconditional idempotence fails.) -/
theorem C7_redaction_idempotent_when_clean (x : String)
    (h : (redactSecrets ((redactSecrets x).content)).redactionCount = 0) :
    (redactSecrets ((redactSecrets x).content)).content =
      (redactSecrets x).content :=
  redactSecrets_of_count_zero _ h

/-- Claim C7 (amended) witness: instantiation at `"hello"`. -/
theorem C7_redaction_idempotent_when_clean_witness :
    (redactSecrets ((redactSecrets "hello").content)).content =
      (redactSecrets "hello").content :=
  C7_redaction_idempotent_when_clean "hello" (by decide)

/-- Each directory-entry step only appends to the blocked list. -/
theorem expandEntryStep_blocked_mono (fs : SandboxFS) (projectPath : String)
    (allowExternalFiles : Bool) (dirRealPath : String)
    (recurse : String → ExpandResult) (acc : ExpandResult) (name : String) :
    ∃ l, (expandEntryStep fs projectPath allowExternalFiles dirRealPath
        recurse acc name).blocked = acc.blocked ++ l := by
  unfold expandEntryStep
  by_cases h1 : (strStartsWith name "." || name = "node_modules") = true
  · exact ⟨[], by simp [h1]⟩
  · simp only [h1]
    cases h2 : fs.realpathSync (joinPath dirRealPath name) with
    | none => exact ⟨[], by simp⟩
    | some entryRealPath =>
      by_cases h3 : isSensitivePath entryRealPath = true
      · exact ⟨[(joinPath dirRealPath name, BlockReason.sensitive_path)],
          by simp [h3]⟩
      · simp only [h3]
        by_cases h4 : (!allowExternalFiles &&
            !isWithinProject entryRealPath projectPath) = true
        · exact ⟨[(joinPath dirRealPath name,
            BlockReason.outside_project_requires_allowExternalFiles)],
            by simp [h3, h4]⟩
        · simp only [h4]
          cases h5 : fs.statKind entryRealPath with
          | file => exact ⟨[], by simp [h3, h4, h5]⟩
          | dir => exact ⟨(recurse entryRealPath).blocked,
              by simp [h3, h4, h5]⟩
          | other => exact ⟨[], by simp [h3, h4, h5]⟩

/-- Blocked records survive the directory fold. -/
theorem foldl_expandEntryStep_blocked_mono (fs : SandboxFS)
    (projectPath : String) (allowExternalFiles : Bool) (dirRealPath : String)
    (recurse : String → ExpandResult) :
    ∀ (names : List String) (acc : ExpandResult),
      ∃ l, (names.foldl (expandEntryStep fs projectPath allowExternalFiles
          dirRealPath recurse) acc).blocked = acc.blocked ++ l
  | [], acc => ⟨[], by simp⟩
  | n :: ns, acc => by
    obtain ⟨l1, h1⟩ := expandEntryStep_blocked_mono fs projectPath
      allowExternalFiles dirRealPath recurse acc n
    obtain ⟨l2, h2⟩ := foldl_expandEntryStep_blocked_mono fs projectPath
      allowExternalFiles dirRealPath recurse ns
      (expandEntryStep fs projectPath allowExternalFiles dirRealPath recurse acc n)
    exact ⟨l1 ++ l2, by simp [h2, h1]⟩

/-- A sensitive-resolving directory entry is recorded as blocked by the
fold over the directory's entries. -/
theorem foldl_expandEntryStep_blocked_mem (fs : SandboxFS)
    (projectPath : String) (allowExternalFiles : Bool) (dirRealPath : String)
    (recurse : String → ExpandResult) (name : String) (entryRealPath : String)
    (hdot : strStartsWith name "." = false) (hnm : name ≠ "node_modules")
    (hrp : fs.realpathSync (joinPath dirRealPath name) = some entryRealPath)
    (hsens : isSensitivePath entryRealPath = true) :
    ∀ (names : List String) (acc : ExpandResult), name ∈ names →
      (joinPath dirRealPath name, BlockReason.sensitive_path) ∈
        (names.foldl (expandEntryStep fs projectPath allowExternalFiles
            dirRealPath recurse) acc).blocked
  | [], _, hmem => absurd hmem (List.not_mem_nil _)
  | n :: ns, acc, hmem => by
    rcases List.mem_cons.mp hmem with heq | hmem'
    · subst heq
      have hstep : (expandEntryStep fs projectPath allowExternalFiles
          dirRealPath recurse acc name).blocked =
          acc.blocked ++ [(joinPath dirRealPath name, BlockReason.sensitive_path)] := by
        unfold expandEntryStep
        simp [hdot, hnm, hrp, hsens]
      obtain ⟨l, hl⟩ := foldl_expandEntryStep_blocked_mono fs projectPath
        allowExternalFiles dirRealPath recurse ns
        (expandEntryStep fs projectPath allowExternalFiles dirRealPath recurse acc name)
      simp only [List.foldl_cons, hl, hstep]
      simp
    · exact foldl_expandEntryStep_blocked_mem fs projectPath
        allowExternalFiles dirRealPath recurse name entryRealPath hdot hnm hrp
        hsens ns _ hmem'

/-- Claim C2: sandbox symlink invariant.  (a) For every input path that
exists and whose resolved real path matches a sensitive pattern,
`expandPath` returns exactly that path blocked as `sensitive_path` and
includes no file from it — identical to requesting the sensitive target
directly, which is blocked by the same pre- or post-resolution check.
(b) During directory recursion the same re-classification runs on every
entry: an entry whose resolved real path is sensitive is recorded as
blocked with reason `sensitive_path`. -/
theorem C2_sandbox_symlink_invariant (fs : SandboxFS)
    (inputPath projectPath : String) (allowExternalFiles : Bool) :
    (∀ realPath,
      fs.existsSync (normalizedInput fs.homedir projectPath inputPath) = true →
      fs.realpathSync (normalizedInput fs.homedir projectPath inputPath) =
        some realPath →
      isSensitivePath realPath = true →
      expandPath fs inputPath projectPath allowExternalFiles 0 =
        ⟨[], [(normalizedInput fs.homedir projectPath inputPath,
          .sensitive_path)]⟩) ∧
    (∀ fuel dirRealPath name entryRealPath,
      isSensitivePath (normalizedInput fs.homedir projectPath inputPath) = false →
      fs.existsSync (normalizedInput fs.homedir projectPath inputPath) = true →
      fs.realpathSync (normalizedInput fs.homedir projectPath inputPath) =
        some dirRealPath →
      isSensitivePath dirRealPath = false →
      (allowExternalFiles = true ∨
        isWithinProject dirRealPath projectPath = true) →
      fs.statKind dirRealPath = .dir →
      name ∈ fs.readdirSync dirRealPath →
      strStartsWith name "." = false →
      name ≠ "node_modules" →
      fs.realpathSync (joinPath dirRealPath name) = some entryRealPath →
      isSensitivePath entryRealPath = true →
      (joinPath dirRealPath name, BlockReason.sensitive_path) ∈
        (expandPathFuel fs projectPath allowExternalFiles (fuel + 1)
            inputPath).blocked) := by
  constructor
  · intro realPath hex hrp hsens
    have hstart : expandPath fs inputPath projectPath allowExternalFiles 0 =
        expandPathFuel fs projectPath allowExternalFiles (9 + 1) inputPath := rfl
    rw [hstart]
    simp only [expandPathFuel]
    by_cases hs : isSensitivePath (normalizedInput fs.homedir projectPath inputPath) = true
    · simp [hs]
    · simp only [Bool.not_eq_true] at hs
      simp [hs, hex, hrp, hsens]
  · intro fuel dirRealPath name entryRealPath hns hex hrp hdsens hwithin hstat
      hmem hdot hnm herp hesens
    simp only [expandPathFuel, hns, hex, hrp, hdsens, hstat]
    have hcond : (!allowExternalFiles &&
        !isWithinProject dirRealPath projectPath) = false := by
      rcases hwithin with h | h <;> simp [h]
    simp only [hcond]
    simp only [Bool.not_true, Bool.false_and, Bool.false_eq_true, if_false,
      Bool.not_false]
    exact foldl_expandEntryStep_blocked_mem fs projectPath allowExternalFiles
      dirRealPath _ name entryRealPath hdot hnm herp hesens _ _ hmem

/-- Claim C2 witness: on the fixture disk, the symlink `/proj/link`
pointing at `~/.ssh/id_rsa` is blocked as sensitive with no files, and
the directory entry `/proj/d/evil` resolving to the same key is recorded
as blocked during recursion into `/proj/d`. -/
theorem C2_sandbox_symlink_invariant_witness :
    (expandPath sandboxFixture "/proj/link" "/proj" false 0 =
      ⟨[], [("/proj/link", .sensitive_path)]⟩) ∧
    ("/proj/d/evil", BlockReason.sensitive_path) ∈
      (expandPathFuel sandboxFixture "/proj" false 10 "/proj/d").blocked := by
  constructor
  · have h := (C2_sandbox_symlink_invariant sandboxFixture "/proj/link" "/proj"
      false).1 "/home/u/.ssh/id_rsa" (by decide) (by decide) (by decide)
    have hn : normalizedInput sandboxFixture.homedir "/proj" "/proj/link" =
        "/proj/link" := by decide
    rw [hn] at h
    exact h
  · have h := (C2_sandbox_symlink_invariant sandboxFixture "/proj/d" "/proj"
      false).2 9 "/proj/d" "evil" "/home/u/.ssh/id_rsa" (by decide) (by decide)
      (by decide) (by decide) (Or.inr (by decide)) (by decide) (by decide)
      (by decide) (by decide) (by decide) (by decide)
    have hj : joinPath "/proj/d" "evil" = "/proj/d/evil" := by decide
    rw [hj] at h
    exact h

/-- Claim C9 counterexample: a non-existent path is not always silently
dropped.  The sensitive-pattern check runs before any filesystem access,
so the non-existent `/proj/.env` (requested as `.env` on an empty disk)
is reported in `blocked` with reason `sensitive_path`, contradicting the
claim that a path that does not exist is absent from `blocked`. -/
theorem C9_counterexample :
    emptySandbox.existsSync "/proj/.env" = false ∧
    expandPath emptySandbox ".env" "/proj" false 0 =
      ⟨[], [("/proj/.env", .sensitive_path)]⟩ := by
  constructor
  · rfl
  · decide

/-- Claim C9 (amended): silent skip of ineligible candidates.  Provided
the normalized expanded input does not match a sensitive pattern (a
sensitive-looking path is blocked before any filesystem access, even
when it does not exist — see the counterexample), a path that does not
exist, or whose real path cannot be resolved, yields a result with the
path in neither `files` nor `blocked`; and any call at or beyond the
recursion depth cap returns the empty result unconditionally. -/
theorem C9_silent_skip (fs : SandboxFS) (inputPath projectPath : String)
    (allowExternalFiles : Bool) :
    (isSensitivePath (normalizedInput fs.homedir projectPath inputPath) = false →
      ((fs.existsSync (normalizedInput fs.homedir projectPath inputPath) = false →
        expandPath fs inputPath projectPath allowExternalFiles 0 = ⟨[], []⟩) ∧
       (fs.existsSync (normalizedInput fs.homedir projectPath inputPath) = true →
        fs.realpathSync (normalizedInput fs.homedir projectPath inputPath) = none →
        expandPath fs inputPath projectPath allowExternalFiles 0 = ⟨[], []⟩))) ∧
    (∀ depth, MAX_EXPAND_DEPTH ≤ depth →
      expandPath fs inputPath projectPath allowExternalFiles depth = ⟨[], []⟩) := by
  constructor
  · intro hns
    have hstart : expandPath fs inputPath projectPath allowExternalFiles 0 =
        expandPathFuel fs projectPath allowExternalFiles (9 + 1) inputPath := rfl
    constructor
    · intro hex
      rw [hstart]
      simp [expandPathFuel, hns, hex]
    · intro hex hrp
      rw [hstart]
      simp [expandPathFuel, hns, hex, hrp]
  · intro depth hdepth
    unfold expandPath
    rw [Nat.sub_eq_zero_of_le hdepth]
    rfl

/-- Claim C9 (amended) witness: on the empty disk, the non-sensitive
non-existent input `a.ts` yields the empty result, and a call at the
depth cap yields the empty result. -/
theorem C9_silent_skip_witness :
    expandPath emptySandbox "a.ts" "/proj" false 0 = ⟨[], []⟩ ∧
    expandPath emptySandbox "a.ts" "/proj" false 10 = ⟨[], []⟩ :=
  ⟨((C9_silent_skip emptySandbox "a.ts" "/proj" false).1 (by decide)).1
      (by decide),
   (C9_silent_skip emptySandbox "a.ts" "/proj" false).2 10 (by decide)⟩

/-- `List.contains` agrees with membership for strings. -/
theorem contains_iff_memStr (l : List String) (s : String) :
    l.contains s = true ↔ s ∈ l := by
  simp [List.contains, List.elem_iff]

/-- Membership in a set insertion. -/
theorem mem_insertUnique (l : List String) (s p : String) :
    p ∈ insertUnique l s ↔ p ∈ l ∨ p = s := by
  unfold insertUnique
  by_cases h : l.contains s
  · rw [if_pos h]
    have hs : s ∈ l := (contains_iff_memStr l s).mp h
    constructor
    · exact Or.inl
    · rintro (hp | rfl)
      · exact hp
      · exact hs
  · rw [if_neg h]
    simp

/-- Membership after folding one reverse-map entry into the dependents
accumulator. -/
theorem mem_dependents_inner (files : List String) :
    ∀ (deps : List String) (acc : List String) (p : String),
      p ∈ deps.foldl
          (fun acc' dep =>
            if files.contains dep then acc' else insertUnique acc' dep) acc ↔
        p ∈ acc ∨ (p ∈ deps ∧ p ∉ files)
  | [], acc, p => by simp
  | d :: ds, acc, p => by
    rw [List.foldl_cons]
    rw [mem_dependents_inner files ds _ p]
    by_cases hd : files.contains d = true
    · rw [if_pos hd]
      have hdm : d ∈ files := (contains_iff_memStr files d).mp hd
      constructor
      · rintro (hp | hp)
        · exact Or.inl hp
        · exact Or.inr ⟨List.mem_cons_of_mem d hp.1, hp.2⟩
      · rintro (hp | ⟨hp1, hp2⟩)
        · exact Or.inl hp
        · rcases List.mem_cons.mp hp1 with rfl | hp1'
          · exact absurd hdm hp2
          · exact Or.inr ⟨hp1', hp2⟩
    · rw [if_neg hd]
      have hdm : d ∉ files := fun hc =>
        hd ((contains_iff_memStr files d).mpr hc)
      constructor
      · rintro (hp | hp)
        · rcases (mem_insertUnique acc d p).mp hp with hp' | rfl
          · exact Or.inl hp'
          · exact Or.inr ⟨List.mem_cons_self _ _, hdm⟩
        · exact Or.inr ⟨List.mem_cons_of_mem d hp.1, hp.2⟩
      · rintro (hp | ⟨hp1, hp2⟩)
        · exact Or.inl ((mem_insertUnique acc d p).mpr (Or.inl hp))
        · rcases List.mem_cons.mp hp1 with rfl | hp1'
          · exact Or.inl ((mem_insertUnique acc p p).mpr (Or.inr rfl))
          · exact Or.inr ⟨hp1', hp2⟩

/-- Membership in the dependents fold over the queried files. -/
theorem mem_dependents_outer (files : List String) (index : ImportIndex) :
    ∀ (fs : List String) (acc : List String) (p : String),
      p ∈ fs.foldl
          (fun acc f =>
            (index.importedBy f).foldl
              (fun acc' dep =>
                if files.contains dep then acc' else insertUnique acc' dep)
              acc) acc ↔
        p ∈ acc ∨ (p ∉ files ∧ ∃ f ∈ fs, p ∈ index.importedBy f)
  | [], acc, p => by simp
  | f :: fs', acc, p => by
    rw [List.foldl_cons]
    rw [mem_dependents_outer files index fs' _ p]
    rw [mem_dependents_inner files (index.importedBy f) acc p]
    constructor
    · rintro ((hp | ⟨hp1, hp2⟩) | ⟨hnf, g, hg1, hg2⟩)
      · exact Or.inl hp
      · exact Or.inr ⟨hp2, f, List.mem_cons_self _ _, hp1⟩
      · exact Or.inr ⟨hnf, g, List.mem_cons_of_mem f hg1, hg2⟩
    · rintro (hp | ⟨hnf, g, hg1, hg2⟩)
      · exact Or.inl (Or.inl hp)
      · rcases List.mem_cons.mp hg1 with rfl | hg1'
        · exact Or.inl (Or.inr ⟨hg2, hnf⟩)
        · exact Or.inr ⟨hnf, g, hg1', hg2⟩

/-- Characterisation of `getDependentsFromIndex` membership. -/
theorem mem_getDependentsFromIndex (files : List String)
    (index : ImportIndex) (p : String) :
    p ∈ getDependentsFromIndex files index ↔
      p ∉ files ∧ ∃ f ∈ files, p ∈ index.importedBy f := by
  unfold getDependentsFromIndex
  rw [mem_dependents_outer files index files [] p]
  simp

/-- Claim C8: `getDependentsFromIndex(files, index)` returns exactly the
union over `f ∈ files` of `index.importedBy f`, minus every path already
present in `files`; and in the scenario project where `a.ts` and `b.ts`
each import `./shared` and `shared.ts` has no imports, querying the
built index for `shared.ts` returns exactly `a.ts` and `b.ts`. -/
theorem C8_getDependentsFromIndex_spec :
    (∀ (files : List String) (index : ImportIndex) (p : String),
      p ∈ getDependentsFromIndex files index ↔
        p ∉ files ∧ ∃ f ∈ files, p ∈ index.importedBy f) ∧
    getDependentsFromIndex ["/proj/shared.ts"]
        (buildImportIndex importFixture "/proj") =
      ["/proj/a.ts", "/proj/b.ts"] := by
  constructor
  · exact mem_getDependentsFromIndex
  · decide

/-- Claim C5 counterexample: `buildImportIndex` records a file in its own
`importedBy` set when the file's source text contains an import that
resolves to the file itself — `/proj/a.ts` contains a side-effect import
of `./a`, which resolves to `/proj/a.ts`, and the built index lists
`/proj/a.ts` among its own dependents, contradicting the claimed
invariant on the index. -/
theorem C5_counterexample :
    "/proj/a.ts" ∈
      (buildImportIndex selfImportFixture "/proj").importedBy "/proj/a.ts" := by
  decide

/-- Claim C5 (amended): the `ImportIndex` itself can record a self-import
(see the counterexample), but the invariant holds at the query level: for
every queried file set and every index, `getDependentsFromIndex` never
returns a file contained in its query set, so a file is never reported
as its own dependent. -/
theorem C5_no_self_in_dependents (files : List String)
    (index : ImportIndex) (f : String) (h : f ∈ files) :
    f ∉ getDependentsFromIndex files index := by
  intro hmem
  exact ((mem_getDependentsFromIndex files index f).mp hmem).1 h

/-- Claim C5 (amended) witness: instantiation at a one-file query whose
index lists the file as its own dependent. -/
theorem C5_no_self_in_dependents_witness :
    "/proj/a.ts" ∉ getDependentsFromIndex ["/proj/a.ts"]
      (buildImportIndex selfImportFixture "/proj") :=
  C5_no_self_in_dependents ["/proj/a.ts"]
    (buildImportIndex selfImportFixture "/proj") "/proj/a.ts" (by simp)

/-- Token sum of a cons. -/
theorem sumTokens_cons (f : FileEntry) (l : List FileEntry) :
    sumTokens (f :: l) = f.tokenEstimate + sumTokens l := by
  simp [sumTokens]

/-- Structure of one `addFilesWithBudget` call: the bundle's files and
`addedFiles` grow by the same admitted suffix, omissions only
accumulate, the conversation context is untouched, the call's returned
usage and the bundle totals grow by the admitted tokens, only the
processed category's counter moves, and every admitted entry comes from
the candidate list and was not previously added. -/
theorem addFilesWithBudget_spec (projectPath : String) (category : Category)
    (budget : Nat) (skip : Bool) :
    ∀ (fs : List FileEntry) (st : BundleState) (used : Nat),
      ∃ new om,
        (addFilesWithBudget projectPath category budget skip st used fs).1.files =
          st.files ++ new ∧
        (addFilesWithBudget projectPath category budget skip st used fs).1.addedFiles =
          st.addedFiles ++ new.map (·.path) ∧
        (addFilesWithBudget projectPath category budget skip st used fs).1.omittedFiles =
          st.omittedFiles ++ om ∧
        (addFilesWithBudget projectPath category budget skip st used fs).1.conversationContext =
          st.conversationContext ∧
        (addFilesWithBudget projectPath category budget skip st used fs).1.totalTokens =
          st.totalTokens + sumTokens new ∧
        (addFilesWithBudget projectPath category budget skip st used fs).2 =
          used + sumTokens new ∧
        (∀ c', (addFilesWithBudget projectPath category budget skip st used fs).1.categories c' =
          if c' = category then st.categories c' + sumTokens new
          else st.categories c') ∧
        (∀ e ∈ new, e ∈ fs ∧ e.path ∉ st.addedFiles)
  | [], st, used => by
    refine ⟨[], [], ?_, ?_, ?_, ?_, ?_, ?_, ?_, ?_⟩ <;>
      simp [addFilesWithBudget, sumTokens]
  | f :: rest, st, used => by
    by_cases h1 : (!skip && !isWithinProject f.path projectPath) = true
    · obtain ⟨new, om, ha, hb, hc, hd, he, hf, hg, hh⟩ :=
        addFilesWithBudget_spec projectPath category budget skip rest
          { st with omittedFiles := st.omittedFiles ++
              [⟨f.path, category, f.tokenEstimate, .outside_project⟩] } used
      refine ⟨new, ⟨f.path, category, f.tokenEstimate, .outside_project⟩ :: om,
        ?_, ?_, ?_, ?_, ?_, ?_, ?_, ?_⟩
      · simp only [addFilesWithBudget, if_pos h1]; rw [ha]
      · simp only [addFilesWithBudget, if_pos h1]; rw [hb]
      · simp only [addFilesWithBudget, if_pos h1]; rw [hc]; simp
      · simp only [addFilesWithBudget, if_pos h1]; rw [hd]
      · simp only [addFilesWithBudget, if_pos h1]; rw [he]
      · simp only [addFilesWithBudget, if_pos h1]; rw [hf]
      · simp only [addFilesWithBudget, if_pos h1]; exact hg
      · intro e he'
        exact ⟨List.mem_cons_of_mem f (hh e he').1, (hh e he').2⟩
    · by_cases h2 : budget < used + f.tokenEstimate
      · obtain ⟨new, om, ha, hb, hc, hd, he, hf, hg, hh⟩ :=
          addFilesWithBudget_spec projectPath category budget skip rest
            { st with omittedFiles := st.omittedFiles ++
                [⟨f.path, category, f.tokenEstimate, .budget_exceeded⟩] } used
        refine ⟨new, ⟨f.path, category, f.tokenEstimate, .budget_exceeded⟩ :: om,
          ?_, ?_, ?_, ?_, ?_, ?_, ?_, ?_⟩
        · simp only [addFilesWithBudget, if_neg h1, if_pos h2]; rw [ha]
        · simp only [addFilesWithBudget, if_neg h1, if_pos h2]; rw [hb]
        · simp only [addFilesWithBudget, if_neg h1, if_pos h2]; rw [hc]; simp
        · simp only [addFilesWithBudget, if_neg h1, if_pos h2]; rw [hd]
        · simp only [addFilesWithBudget, if_neg h1, if_pos h2]; rw [he]
        · simp only [addFilesWithBudget, if_neg h1, if_pos h2]; rw [hf]
        · simp only [addFilesWithBudget, if_neg h1, if_pos h2]; exact hg
        · intro e he'
          exact ⟨List.mem_cons_of_mem f (hh e he').1, (hh e he').2⟩
      · by_cases h3 : st.addedFiles.contains f.path = true
        · obtain ⟨new, om, ha, hb, hc, hd, he, hf, hg, hh⟩ :=
            addFilesWithBudget_spec projectPath category budget skip rest st used
          refine ⟨new, om, ?_, ?_, ?_, ?_, ?_, ?_, ?_, ?_⟩
          · simp only [addFilesWithBudget, if_neg h1, if_neg h2, if_pos h3]; rw [ha]
          · simp only [addFilesWithBudget, if_neg h1, if_neg h2, if_pos h3]; rw [hb]
          · simp only [addFilesWithBudget, if_neg h1, if_neg h2, if_pos h3]; rw [hc]
          · simp only [addFilesWithBudget, if_neg h1, if_neg h2, if_pos h3]; rw [hd]
          · simp only [addFilesWithBudget, if_neg h1, if_neg h2, if_pos h3]; rw [he]
          · simp only [addFilesWithBudget, if_neg h1, if_neg h2, if_pos h3]; rw [hf]
          · simp only [addFilesWithBudget, if_neg h1, if_neg h2, if_pos h3]; exact hg
          · intro e he'
            exact ⟨List.mem_cons_of_mem f (hh e he').1, (hh e he').2⟩
        · obtain ⟨new, om, ha, hb, hc, hd, he, hf, hg, hh⟩ :=
            addFilesWithBudget_spec projectPath category budget skip rest
              { st with files := st.files ++ [f],
                        addedFiles := st.addedFiles ++ [f.path],
                        totalTokens := st.totalTokens + f.tokenEstimate,
                        categories := fun c =>
                          if c = category then st.categories c + f.tokenEstimate
                          else st.categories c }
              (used + f.tokenEstimate)
          refine ⟨f :: new, om, ?_, ?_, ?_, ?_, ?_, ?_, ?_, ?_⟩
          · simp only [addFilesWithBudget, if_neg h1, if_neg h2, if_neg h3]
            rw [ha]; simp
          · simp only [addFilesWithBudget, if_neg h1, if_neg h2, if_neg h3]
            rw [hb]; simp
          · simp only [addFilesWithBudget, if_neg h1, if_neg h2, if_neg h3]
            rw [hc]
          · simp only [addFilesWithBudget, if_neg h1, if_neg h2, if_neg h3]
            rw [hd]
          · simp only [addFilesWithBudget, if_neg h1, if_neg h2, if_neg h3]
            rw [he, sumTokens_cons]; try simp
            try omega
          · simp only [addFilesWithBudget, if_neg h1, if_neg h2, if_neg h3]
            rw [hf, sumTokens_cons]; try simp
            try omega
          · intro c'
            simp only [addFilesWithBudget, if_neg h1, if_neg h2, if_neg h3]
            rw [hg c', sumTokens_cons]
            by_cases hcc : c' = category <;> simp [hcc] <;> try omega
          · intro e he'
            rcases List.mem_cons.mp he' with rfl | he''
            · refine ⟨List.mem_cons_self _ _, fun hm => ?_⟩
              exact h3 ((contains_iff_memStr st.addedFiles e.path).mpr hm)
            · refine ⟨List.mem_cons_of_mem f (hh e he'').1, fun hm => ?_⟩
              exact (hh e he'').2 (List.mem_append_left _ hm)

/-- `addFilesWithBudget` keeps `addedFiles` equal to the paths of the
admitted files and free of duplicates. -/
theorem addFilesWithBudget_nodup (projectPath : String) (category : Category)
    (budget : Nat) (skip : Bool) :
    ∀ (fs : List FileEntry) (st : BundleState),
      st.addedFiles = st.files.map (·.path) → st.addedFiles.Nodup →
      ∀ (used : Nat),
        (addFilesWithBudget projectPath category budget skip st used fs).1.addedFiles =
          (addFilesWithBudget projectPath category budget skip st used fs).1.files.map (·.path) ∧
        (addFilesWithBudget projectPath category budget skip st used fs).1.addedFiles.Nodup
  | [], st, hsync, hnodup, used => by
    simpa [addFilesWithBudget] using ⟨hsync, hnodup⟩
  | f :: rest, st, hsync, hnodup, used => by
    by_cases h1 : (!skip && !isWithinProject f.path projectPath) = true
    · simp only [addFilesWithBudget, if_pos h1]
      exact addFilesWithBudget_nodup projectPath category budget skip rest
        { st with omittedFiles := st.omittedFiles ++
            [⟨f.path, category, f.tokenEstimate, .outside_project⟩] }
        hsync hnodup used
    · by_cases h2 : budget < used + f.tokenEstimate
      · simp only [addFilesWithBudget, if_neg h1, if_pos h2]
        exact addFilesWithBudget_nodup projectPath category budget skip rest
          { st with omittedFiles := st.omittedFiles ++
              [⟨f.path, category, f.tokenEstimate, .budget_exceeded⟩] }
          hsync hnodup used
      · by_cases h3 : st.addedFiles.contains f.path = true
        · simp only [addFilesWithBudget, if_neg h1, if_neg h2, if_pos h3]
          exact addFilesWithBudget_nodup projectPath category budget skip rest
            st hsync hnodup used
        · simp only [addFilesWithBudget, if_neg h1, if_neg h2, if_neg h3]
          refine addFilesWithBudget_nodup projectPath category budget skip rest
            { st with files := st.files ++ [f],
                      addedFiles := st.addedFiles ++ [f.path],
                      totalTokens := st.totalTokens + f.tokenEstimate,
                      categories := fun c =>
                        if c = category then st.categories c + f.tokenEstimate
                        else st.categories c }
            ?_ ?_ (used + f.tokenEstimate)
          · simp [hsync]
          · have hni : f.path ∉ st.addedFiles := fun hm =>
              h3 ((contains_iff_memStr st.addedFiles f.path).mpr hm)
            simp [List.nodup_append, hnodup, hni]

/-- `addFilesWithBudget` over a concatenation processes the two parts in
sequence, threading the state and the usage. -/
theorem addFilesWithBudget_append (projectPath : String) (category : Category)
    (budget : Nat) (skip : Bool) :
    ∀ (xs ys : List FileEntry) (st : BundleState) (used : Nat),
      addFilesWithBudget projectPath category budget skip st used (xs ++ ys) =
        addFilesWithBudget projectPath category budget skip
          (addFilesWithBudget projectPath category budget skip st used xs).1
          (addFilesWithBudget projectPath category budget skip st used xs).2 ys
  | [], ys, st, used => by simp [addFilesWithBudget]
  | f :: xs, ys, st, used => by
    simp only [List.cons_append]
    by_cases h1 : (!skip && !isWithinProject f.path projectPath) = true
    · simp only [addFilesWithBudget, if_pos h1]
      exact addFilesWithBudget_append projectPath category budget skip xs ys _ _
    · by_cases h2 : budget < used + f.tokenEstimate
      · simp only [addFilesWithBudget, if_neg h1, if_pos h2]
        exact addFilesWithBudget_append projectPath category budget skip xs ys _ _
      · by_cases h3 : st.addedFiles.contains f.path = true
        · simp only [addFilesWithBudget, if_neg h1, if_neg h2, if_pos h3]
          exact addFilesWithBudget_append projectPath category budget skip xs ys _ _
        · simp only [addFilesWithBudget, if_neg h1, if_neg h2, if_neg h3]
          exact addFilesWithBudget_append projectPath category budget skip xs ys _ _

/-- Claim C6: greedy admission with omission tracking.  Within a
category, candidates are admitted in the supplied order; when the next
file's token estimate would push this call's usage over the effective
budget, the file is recorded as omitted with reason `budget_exceeded`
and processing simply continues with the remaining files on the same
usage — so a later file that still fits (and was not already added) is
admitted. -/
theorem C6_greedy_admission (projectPath : String) (category : Category)
    (budget : Nat) (skip : Bool) (st : BundleState)
    (pre post : List FileEntry) (f : FileEntry)
    (hb : skip = true ∨ isWithinProject f.path projectPath = true)
    (hover : budget <
      (addFilesWithBudget projectPath category budget skip st 0 pre).2 +
        f.tokenEstimate) :
    (addFilesWithBudget projectPath category budget skip st 0
        (pre ++ f :: post) =
      addFilesWithBudget projectPath category budget skip
        { (addFilesWithBudget projectPath category budget skip st 0 pre).1 with
          omittedFiles :=
            (addFilesWithBudget projectPath category budget skip st 0 pre).1.omittedFiles ++
              [⟨f.path, category, f.tokenEstimate, .budget_exceeded⟩] }
        (addFilesWithBudget projectPath category budget skip st 0 pre).2 post) ∧
    (⟨f.path, category, f.tokenEstimate, .budget_exceeded⟩ : OmittedFile) ∈
      (addFilesWithBudget projectPath category budget skip st 0
          (pre ++ f :: post)).1.omittedFiles ∧
    (∀ g post', post = g :: post' →
      (skip = true ∨ isWithinProject g.path projectPath = true) →
      (addFilesWithBudget projectPath category budget skip st 0 pre).2 +
          g.tokenEstimate ≤ budget →
      g.path ∉ (addFilesWithBudget projectPath category budget skip st 0 pre).1.addedFiles →
      g ∈ (addFilesWithBudget projectPath category budget skip st 0
          (pre ++ f :: post)).1.files) := by
  have hbf : (!skip && !isWithinProject f.path projectPath) = false := by
    rcases hb with h | h <;> simp [h]
  have hstep : addFilesWithBudget projectPath category budget skip st 0
      (pre ++ f :: post) =
      addFilesWithBudget projectPath category budget skip
        { (addFilesWithBudget projectPath category budget skip st 0 pre).1 with
          omittedFiles :=
            (addFilesWithBudget projectPath category budget skip st 0 pre).1.omittedFiles ++
              [⟨f.path, category, f.tokenEstimate, .budget_exceeded⟩] }
        (addFilesWithBudget projectPath category budget skip st 0 pre).2 post := by
    rw [addFilesWithBudget_append projectPath category budget skip pre
      (f :: post) st 0]
    simp only [addFilesWithBudget, hbf, Bool.false_eq_true, if_false,
      if_pos hover]
  refine ⟨hstep, ?_, ?_⟩
  · rw [hstep]
    obtain ⟨new, om, _, _, hc, _⟩ :=
      addFilesWithBudget_spec projectPath category budget skip post _ _
    rw [hc]
    simp
  · intro g post' hpost hgb hle hnotin
    subst hpost
    rw [hstep]
    have hgf : (!skip && !isWithinProject g.path projectPath) = false := by
      rcases hgb with h | h <;> simp [h]
    have hgc : ({ (addFilesWithBudget projectPath category budget skip st 0 pre).1 with
        omittedFiles :=
          (addFilesWithBudget projectPath category budget skip st 0 pre).1.omittedFiles ++
            [⟨f.path, category, f.tokenEstimate, .budget_exceeded⟩] } :
        BundleState).addedFiles.contains g.path = false := by
      rcases hcon : ((addFilesWithBudget projectPath category budget skip st 0
          pre).1.addedFiles).contains g.path with _ | _
      · rfl
      · exact absurd ((contains_iff_memStr _ _).mp hcon) hnotin
    simp only [addFilesWithBudget, hgf, Bool.false_eq_true, if_false,
      if_neg (not_lt.mpr hle), hgc]
    obtain ⟨new, om, ha, _⟩ :=
      addFilesWithBudget_spec projectPath category budget skip post' _ _
    rw [ha]
    simp

/-- Claim C6 witness: the spec scenario.  With `tokenCeiling = 1000`, no
conversation, and explicit files of 100 and 500 tokens, the explicit
base budget is `floor(1000 * 0.15) = 150`; the 100-token file is
admitted and the 500-token file is recorded as `budget_exceeded`. -/
theorem C6_greedy_admission_witness :
    baseBudget 1000 Category.explicit = 150 ∧
    (addFilesWithBudget "/p" Category.explicit
        (baseBudget 1000 Category.explicit) true (initialBundle "") 0
        [⟨"/p/a.ts", "", Category.explicit, 100⟩,
         ⟨"/p/b.ts", "", Category.explicit, 500⟩]).1.files =
      [⟨"/p/a.ts", "", Category.explicit, 100⟩] ∧
    (addFilesWithBudget "/p" Category.explicit
        (baseBudget 1000 Category.explicit) true (initialBundle "") 0
        [⟨"/p/a.ts", "", Category.explicit, 100⟩,
         ⟨"/p/b.ts", "", Category.explicit, 500⟩]).1.omittedFiles =
      [⟨"/p/b.ts", Category.explicit, 500, OmitReason.budget_exceeded⟩] ∧
    (⟨"/p/b.ts", Category.explicit, 500, OmitReason.budget_exceeded⟩ :
        OmittedFile) ∈
      (addFilesWithBudget "/p" Category.explicit
          (baseBudget 1000 Category.explicit) true (initialBundle "") 0
          ([⟨"/p/a.ts", "", Category.explicit, 100⟩] ++
            ⟨"/p/b.ts", "", Category.explicit, 500⟩ :: [])).1.omittedFiles :=
  ⟨by decide, by decide, by decide,
   (C6_greedy_admission "/p" Category.explicit
      (baseBudget 1000 Category.explicit) true (initialBundle "")
      [⟨"/p/a.ts", "", Category.explicit, 100⟩] []
      ⟨"/p/b.ts", "", Category.explicit, 500⟩
      (Or.inl rfl) (by decide)).2.1⟩

/-- Token sum of a concatenation. -/
theorem sumTokens_append (a b : List FileEntry) :
    sumTokens (a ++ b) = sumTokens a + sumTokens b := by
  simp [sumTokens]

/-- Charging one category's counter raises the seven-counter sum by the
charged amount. -/
theorem categoriesSum_update (g : Category → Nat) (c : Category) (n : Nat) :
    (CATEGORY_PRIORITY_ORDER.map fun c' =>
      if c' = c then g c' + n else g c').sum =
      (CATEGORY_PRIORITY_ORDER.map g).sum + n := by
  cases c <;> simp [CATEGORY_PRIORITY_ORDER] <;> try omega

/-- The bundle produced by one phase is the bundle produced by that
phase's `addFilesWithBudget` call. -/
theorem bundleStep_fst (projectPath : String) (remainingBudget : Nat)
    (cand : BundleCandidates) (k : Nat) (stsp : BundleState × Nat) :
    (bundleStep projectPath remainingBudget cand k stsp).1 =
      (addFilesWithBudget projectPath (phaseCategory k)
        (if k = 0 then baseBudget remainingBudget (phaseCategory k) + stsp.2
         else if k = 6 then baseBudget remainingBudget (phaseCategory k) + stsp.2
         else baseBudget remainingBudget (phaseCategory k) + stsp.2 / 2)
        (k = 0) stsp.1 0 (phaseEntries cand stsp.1 k)).1 := by
  unfold bundleStep
  by_cases h : k = 6 <;> simp [h]

/-- Entries constructed by `readFileEntry` carry the given category. -/
theorem readFileEntry_category (filePath : String) (category : Category)
    (content : String) : (readFileEntry filePath category content).category =
      category := rfl

/-- Entries of one candidate batch carry the batch's category. -/
theorem mkEntries_category (category : Category) (l : List (String × String)) :
    ∀ e ∈ mkEntries category l, e.category = category := by
  intro e he
  simp only [mkEntries, List.mem_map] at he
  obtain ⟨pc, _, rfl⟩ := he
  rfl

/-- The stable sort produces a list drawn from its input. -/
theorem mem_sortByTokenEstimate (l : List FileEntry) (e : FileEntry)
    (h : e ∈ sortByTokenEstimate l) : e ∈ l := by
  suffices haux : ∀ (l' acc : List FileEntry),
      e ∈ l'.foldl (fun acc f =>
        (acc.partition (fun g => g.tokenEstimate ≤ f.tokenEstimate)).1 ++ [f] ++
          (acc.partition (fun g => g.tokenEstimate ≤ f.tokenEstimate)).2) acc →
      e ∈ acc ∨ e ∈ l' by
    rcases haux l [] h with hacc | hl
    · exact absurd hacc (List.not_mem_nil e)
    · exact hl
  intro l'
  induction l' with
  | nil => intro acc hacc; exact Or.inl hacc
  | cons f fs ih =>
    intro acc hacc
    rcases ih _ hacc with hins | hfs
    · simp only [List.partition_eq_filter_filter, List.append_assoc,
        List.mem_append, List.mem_filter, List.mem_singleton] at hins
      rcases hins with ⟨hm, _⟩ | (rfl | ⟨hm, _⟩)
      · exact Or.inl hm
      · exact Or.inr (List.mem_cons_self _ _)
      · exact Or.inl hm
    · exact Or.inr (List.mem_cons_of_mem f hfs)

/-- The candidate entries handed to phase `k` all carry phase `k`'s
category. -/
theorem phaseEntries_category (cand : BundleCandidates) (st : BundleState) :
    ∀ (k : Nat), ∀ e ∈ phaseEntries cand st k, e.category = phaseCategory k
  | 0, e, he => mkEntries_category _ _ e he
  | 1, e, he => mkEntries_category _ _ e he
  | 2, e, he => mkEntries_category _ _ e he
  | 3, e, he => mkEntries_category _ _ e (mem_sortByTokenEstimate _ e he)
  | 4, e, he => mkEntries_category _ _ e (mem_sortByTokenEstimate _ e he)
  | 5, e, he => mkEntries_category _ _ e he
  | n + 6, e, he => mkEntries_category _ _ e he

/-- The phase index is a left inverse of the phase category on `0..6`. -/
theorem phaseIdx_phaseCategory : ∀ (k : Nat), k < 7 →
    phaseIdx (phaseCategory k) = k
  | 0, _ => rfl
  | 1, _ => rfl
  | 2, _ => rfl
  | 3, _ => rfl
  | 4, _ => rfl
  | 5, _ => rfl
  | 6, _ => rfl
  | n + 7, h => absurd h (by omega)

/-- Claim C10 helper: the token-accounting invariant holds after every
phase of a run. -/
theorem bundle_accounting (projectPath : String) (maxTokens : Nat)
    (conversationContext : String) (cand : BundleCandidates) :
    ∀ k,
      ((bundleAfter projectPath maxTokens conversationContext cand k).1.totalTokens =
        estimateTokens conversationContext +
          sumTokens (bundleAfter projectPath maxTokens conversationContext cand k).1.files) ∧
      (sumTokens (bundleAfter projectPath maxTokens conversationContext cand k).1.files =
        categoriesTotal (bundleAfter projectPath maxTokens conversationContext cand k).1)
  | 0 => by
    constructor <;>
      simp [bundleAfter, initialBundle, sumTokens, categoriesTotal,
        CATEGORY_PRIORITY_ORDER]
  | k + 1 => by
    obtain ⟨ih1, ih2⟩ :=
      bundle_accounting projectPath maxTokens conversationContext cand k
    have hstep : bundleAfter projectPath maxTokens conversationContext cand
        (k + 1) =
        bundleStep projectPath
          (maxTokens - estimateTokens conversationContext) cand k
          (bundleAfter projectPath maxTokens conversationContext cand k) := rfl
    have hfst := bundleStep_fst projectPath
      (maxTokens - estimateTokens conversationContext) cand k
      (bundleAfter projectPath maxTokens conversationContext cand k)
    obtain ⟨new, om, ha, hb, hc, hd, he, hf, hg, hh⟩ :=
      addFilesWithBudget_spec projectPath (phaseCategory k)
        (if k = 0 then
          baseBudget (maxTokens - estimateTokens conversationContext)
            (phaseCategory k) +
            (bundleAfter projectPath maxTokens conversationContext cand k).2
         else if k = 6 then
          baseBudget (maxTokens - estimateTokens conversationContext)
            (phaseCategory k) +
            (bundleAfter projectPath maxTokens conversationContext cand k).2
         else
          baseBudget (maxTokens - estimateTokens conversationContext)
            (phaseCategory k) +
            (bundleAfter projectPath maxTokens conversationContext cand k).2 / 2)
        (k = 0)
        (phaseEntries cand
          (bundleAfter projectPath maxTokens conversationContext cand k).1 k)
        (bundleAfter projectPath maxTokens conversationContext cand k).1 0
    rw [hstep, hfst]
    constructor
    · rw [he, ha, ih1, sumTokens_append]
      omega
    · rw [ha, sumTokens_append, ih2]
      unfold categoriesTotal
      rw [List.map_congr_left (fun c' _ => hg c')]
      rw [categoriesSum_update]

/-- Claim C10 (implicit): total-token accounting.  In every run, the
bundle's `totalTokens` equals the conversation context's token estimate
(zero when no conversation is included, since the context is then the
empty string) plus the sum of `tokenEstimate` over the admitted files,
and that file-token sum equals the sum of the seven per-category
counters. -/
theorem C10_total_token_accounting (projectPath : String) (maxTokens : Nat)
    (conversationContext : String) (cand : BundleCandidates) :
    ((bundleContext projectPath maxTokens conversationContext cand).totalTokens =
      estimateTokens conversationContext +
        sumTokens (bundleContext projectPath maxTokens conversationContext cand).files) ∧
    (sumTokens (bundleContext projectPath maxTokens conversationContext cand).files =
      categoriesTotal (bundleContext projectPath maxTokens conversationContext cand)) :=
  bundle_accounting projectPath maxTokens conversationContext cand 7

/-- Claim C3 helper: after every phase, `addedFiles` lists exactly the
admitted paths without duplicates, and every admitted entry was admitted
by the phase of its own category and not before. -/
theorem bundle_phase_inv (projectPath : String) (maxTokens : Nat)
    (conversationContext : String) (cand : BundleCandidates) :
    ∀ k, k ≤ 7 →
      ((bundleAfter projectPath maxTokens conversationContext cand k).1.addedFiles =
        (bundleAfter projectPath maxTokens conversationContext cand k).1.files.map
          (·.path)) ∧
      (bundleAfter projectPath maxTokens conversationContext cand k).1.addedFiles.Nodup ∧
      (∀ e ∈ (bundleAfter projectPath maxTokens conversationContext cand k).1.files,
        phaseIdx e.category < k ∧
        e.path ∉ (bundleAfter projectPath maxTokens conversationContext cand
          (phaseIdx e.category)).1.addedFiles ∧
        e ∈ (bundleAfter projectPath maxTokens conversationContext cand
          (phaseIdx e.category + 1)).1.files)
  | 0, _ => by
    refine ⟨rfl, ?_, ?_⟩
    · simp [bundleAfter, initialBundle]
    · intro e he
      simp [bundleAfter, initialBundle] at he
  | k + 1, hk => by
    obtain ⟨ihsync, ihnodup, ihmem⟩ :=
      bundle_phase_inv projectPath maxTokens conversationContext cand k
        (by omega)
    have hstep : bundleAfter projectPath maxTokens conversationContext cand
        (k + 1) =
        bundleStep projectPath
          (maxTokens - estimateTokens conversationContext) cand k
          (bundleAfter projectPath maxTokens conversationContext cand k) := rfl
    have hfst := bundleStep_fst projectPath
      (maxTokens - estimateTokens conversationContext) cand k
      (bundleAfter projectPath maxTokens conversationContext cand k)
    obtain ⟨new, om, ha, hb, hc, hd, he, hf, hg, hh⟩ :=
      addFilesWithBudget_spec projectPath (phaseCategory k)
        (if k = 0 then
          baseBudget (maxTokens - estimateTokens conversationContext)
            (phaseCategory k) +
            (bundleAfter projectPath maxTokens conversationContext cand k).2
         else if k = 6 then
          baseBudget (maxTokens - estimateTokens conversationContext)
            (phaseCategory k) +
            (bundleAfter projectPath maxTokens conversationContext cand k).2
         else
          baseBudget (maxTokens - estimateTokens conversationContext)
            (phaseCategory k) +
            (bundleAfter projectPath maxTokens conversationContext cand k).2 / 2)
        (k = 0)
        (phaseEntries cand
          (bundleAfter projectPath maxTokens conversationContext cand k).1 k)
        (bundleAfter projectPath maxTokens conversationContext cand k).1 0
    have hsn :=
      addFilesWithBudget_nodup projectPath (phaseCategory k)
        (if k = 0 then
          baseBudget (maxTokens - estimateTokens conversationContext)
            (phaseCategory k) +
            (bundleAfter projectPath maxTokens conversationContext cand k).2
         else if k = 6 then
          baseBudget (maxTokens - estimateTokens conversationContext)
            (phaseCategory k) +
            (bundleAfter projectPath maxTokens conversationContext cand k).2
         else
          baseBudget (maxTokens - estimateTokens conversationContext)
            (phaseCategory k) +
            (bundleAfter projectPath maxTokens conversationContext cand k).2 / 2)
        (k = 0)
        (phaseEntries cand
          (bundleAfter projectPath maxTokens conversationContext cand k).1 k)
        (bundleAfter projectPath maxTokens conversationContext cand k).1
        ihsync ihnodup 0
    refine ⟨?_, ?_, ?_⟩
    · rw [hstep, hfst]
      exact hsn.1
    · rw [hstep, hfst]
      exact hsn.2
    · intro e he'
      rw [hstep, hfst, ha] at he'
      rcases List.mem_append.mp he' with hold | hnew
      · obtain ⟨hlt, hnot, hmem⟩ := ihmem e hold
        exact ⟨Nat.lt_succ_of_lt hlt, hnot, hmem⟩
      · have hcat : e.category = phaseCategory k :=
          phaseEntries_category cand
            (bundleAfter projectPath maxTokens conversationContext cand k).1 k
            e ((hh e hnew).1)
        have hidx : phaseIdx e.category = k := by
          rw [hcat]
          exact phaseIdx_phaseCategory k (by omega)
        refine ⟨by omega, ?_, ?_⟩
        · rw [hidx]
          exact (hh e hnew).2
        · rw [hidx, hstep, hfst, ha]
          exact List.mem_append_right _ hnew

/-- Claim C3 (amended): no double-counting by raw path string.  In
every run of the bundler, each raw path string appears in the resulting
`files` at most once — deduplication is by exact string, not by
symlink-resolved canonical path (see the counterexample: two aliases of
one canonical file can each be admitted once) — and the category an
entry carries is that of the phase that admitted it: the entry's path
was not in the dedup set before its own category's phase ran, phases
running in the priority order explicit > session > git > dependency >
dependent > test > type, and the entry is present as soon as its
category's phase has run.  A path merely listed as a candidate by a
higher-priority category but omitted there (for example for budget) is
not recorded in the dedup set, so it can still be admitted under a
lower-priority category (see the counterexample). -/
theorem C3_no_double_counting (projectPath : String) (maxTokens : Nat)
    (conversationContext : String) (cand : BundleCandidates) :
    ((bundleContext projectPath maxTokens conversationContext cand).files.map
      (·.path)).Nodup ∧
    (∀ e ∈ (bundleContext projectPath maxTokens conversationContext cand).files,
      e.path ∉ (bundleAfter projectPath maxTokens conversationContext cand
        (phaseIdx e.category)).1.addedFiles ∧
      e ∈ (bundleAfter projectPath maxTokens conversationContext cand
        (phaseIdx e.category + 1)).1.files) := by
  obtain ⟨hsync, hnodup, hmem⟩ :=
    bundle_phase_inv projectPath maxTokens conversationContext cand 7
      (le_refl 7)
  have hbc : bundleContext projectPath maxTokens conversationContext cand =
      (bundleAfter projectPath maxTokens conversationContext cand 7).1 := rfl
  rw [hbc]
  constructor
  · rw [← hsync]
    exact hnodup
  · intro e he
    obtain ⟨_, hnot, hm⟩ := hmem e he
    exact ⟨hnot, hm⟩

/-- Claim C3 counterexample: the original claim fails on two points.
(1) Canonical uniqueness fails: on the `aliasFixture` disk, the
explicit request for the symlink is resolved by `expandPath` to
`/proj/real.ts`, but the session log's raw alias `/proj/link.ts` is
admitted as supplied (the source never resolves session paths), so the
bundle holds two entries whose symlink-resolved canonical paths
coincide — one canonical file appears twice.
(2) The category is not the highest-priority category that ever claimed
the file: in the `reclaimCandidates` run the explicit phase claims
`/proj/a.ts` and records it omitted as `budget_exceeded` (an explicit
`OmittedFile`), yet the session phase later admits it, so the entry
carries category `session` although `explicit` claimed it first. -/
theorem C3_counterexample :
    (expandPath aliasFixture "/proj/link.ts" "/proj" false 0 =
      ⟨["/proj/real.ts"], []⟩) ∧
    ((bundleContext "/proj" 1000 "" aliasCandidates).files.map (·.path) =
      ["/proj/real.ts", "/proj/link.ts"]) ∧
    aliasFixture.realpathSync "/proj/link.ts" = some "/proj/real.ts" ∧
    ¬ ((bundleContext "/proj" 1000 "" aliasCandidates).files.map
        (fun e => aliasFixture.realpathSync e.path)).Nodup ∧
    ((bundleContext "/proj" 100 "" reclaimCandidates).files.map
        (fun e => (e.path, e.category)) =
      [("/proj/a.ts", Category.session)]) ∧
    ((bundleContext "/proj" 100 "" reclaimCandidates).omittedFiles.map
        (fun o => (o.path, o.category, o.reason)) =
      [("/proj/a.ts", Category.explicit, OmitReason.budget_exceeded)]) := by
  refine ⟨by decide, by decide, by decide, by decide, by decide, by decide⟩

set_option maxHeartbeats 1000000 in
/-- Telescoping identity for the spillover accounting: the net term of
each non-final phase is the drop in the spillover pool across that
phase's update. -/
theorem totalAvailable_eq (R : Nat) (u : Nat → Nat) :
    totalAvailable R u = (baseBudgetSum R : ℤ) := by
  have hrange : List.range 7 = [0, 1, 2, 3, 4, 5, 6] := rfl
  have e0 : spilloverAfter R u 0 = 0 := rfl
  have e1 : spilloverAfter R u 1 =
      getBudgetWithSpillover (baseBudget R (phaseCategory 0)) (u 0)
        (spilloverAfter R u 0) := rfl
  have e2 : spilloverAfter R u 2 =
      getBudgetWithSpillover (baseBudget R (phaseCategory 1)) (u 1)
        (spilloverAfter R u 1) := rfl
  have e3 : spilloverAfter R u 3 =
      getBudgetWithSpillover (baseBudget R (phaseCategory 2)) (u 2)
        (spilloverAfter R u 2) := rfl
  have e4 : spilloverAfter R u 4 =
      getBudgetWithSpillover (baseBudget R (phaseCategory 3)) (u 3)
        (spilloverAfter R u 3) := rfl
  have e5 : spilloverAfter R u 5 =
      getBudgetWithSpillover (baseBudget R (phaseCategory 4)) (u 4)
        (spilloverAfter R u 4) := rfl
  have e6 : spilloverAfter R u 6 =
      getBudgetWithSpillover (baseBudget R (phaseCategory 5)) (u 5)
        (spilloverAfter R u 5) := rfl
  simp only [getBudgetWithSpillover] at e1 e2 e3 e4 e5 e6
  simp only [totalAvailable, baseBudgetSum, hrange, List.map_cons,
    List.map_nil, List.sum_cons, List.sum_nil, netSpilloverReceived,
    bonusGranted, unusedFromBase]
  norm_num
  omega

/-- The seven floored base budgets sum to the remaining budget up to at
most six tokens of floor loss. -/
theorem baseBudgetSum_bounds (R : Nat) :
    baseBudgetSum R ≤ R ∧ R ≤ baseBudgetSum R + 6 := by
  have hrange : List.range 7 = [0, 1, 2, 3, 4, 5, 6] := rfl
  have hb0 : baseBudget R (phaseCategory 0) = R * 15 / 100 := rfl
  have hb1 : baseBudget R (phaseCategory 1) = R * 30 / 100 := rfl
  have hb2 : baseBudget R (phaseCategory 2) = R * 10 / 100 := rfl
  have hb3 : baseBudget R (phaseCategory 3) = R * 15 / 100 := rfl
  have hb4 : baseBudget R (phaseCategory 4) = R * 15 / 100 := rfl
  have hb5 : baseBudget R (phaseCategory 5) = R * 10 / 100 := rfl
  have hb6 : baseBudget R (phaseCategory 6) = R * 5 / 100 := rfl
  simp only [baseBudgetSum, hrange, List.map_cons, List.map_nil,
    List.sum_cons, List.sum_nil, hb0, hb1, hb2, hb3, hb4, hb5, hb6]
  omega

/-- Claim C1: budget conservation.  For every run (for every sequence
`u` of per-category token usages, covering whatever usages a run's seven
`addFilesWithBudget` calls return), the total token budget made
available across the seven categories — each category's base budget plus
the net spillover it receives, the bonus granted to it minus the unused
base budget it passes back into the pool, with the final `type` category
receiving and keeping all remaining spillover — equals the sum of the
seven base budgets, which equals `tokenCeiling − conversationTokens`
to within integer-floor rounding (the seven floors lose at most six
tokens in total).  The identity holds for arbitrary usages, in
particular for runs in which spillover granted as a bonus is left
unused. -/
theorem C1_budget_conservation (maxTokens convTokens : Nat)
    (h : convTokens ≤ maxTokens) (u : Nat → Nat) :
    totalAvailable (maxTokens - convTokens) u =
      (baseBudgetSum (maxTokens - convTokens) : ℤ) ∧
    baseBudgetSum (maxTokens - convTokens) ≤ maxTokens - convTokens ∧
    maxTokens - convTokens ≤ baseBudgetSum (maxTokens - convTokens) + 6 :=
  ⟨totalAvailable_eq (maxTokens - convTokens) u,
   (baseBudgetSum_bounds (maxTokens - convTokens)).1,
   (baseBudgetSum_bounds (maxTokens - convTokens)).2⟩

/-- Claim C1 witness: with a ceiling of 1000 tokens, no conversation and
all categories unused, the total availability is the base-budget sum,
which here is exactly 1000. -/
theorem C1_budget_conservation_witness :
    (totalAvailable (1000 - 0) (fun _ => 0) =
      (baseBudgetSum (1000 - 0) : ℤ) ∧
     baseBudgetSum (1000 - 0) ≤ 1000 - 0 ∧
     1000 - 0 ≤ baseBudgetSum (1000 - 0) + 6) ∧
    baseBudgetSum 1000 = 1000 :=
  ⟨C1_budget_conservation 1000 0 (by decide) (fun _ => 0), by decide⟩

end SecondOpinion
